import Mathlib

/-!
Shallow embedding of the curlywas compiler front end, centered on the type
checker in src/typecheck.rs.  The checker is translated function by function:
`tc_script`, `tc_expression`, `tc_mem_location`, `tc_const`, the `LocalVars`
scope stack and the per-function slot-assignment loop.  The repository snapshot
ships only an older `ast.rs`; the AST pieces that `typecheck.rs` actually uses
(the full `Expr` enum, `Locals`, `LetType`, data segments) are therefore
modelled from the specification, with doc comments marking each such spot.
Diagnostics, which the source prints through the `ariadne` sink, are modelled
as structured `Diag` values accumulated in the checker state.
-/

/-- Source span, modelling `std::ops::Range<usize>` (start, end). -/
abbrev Span := Nat × Nat

/-- Modelled from the spec: the four value types of `ast::Type`
(parser2.rs derives `Ord` on the declaration order i32, i64, f32, f64). -/
inductive Ty where
  | i32
  | i64
  | f32
  | f64
deriving DecidableEq, Repr

/-- Numeric rank of a type, realising the derived `Ord` of `ast::Type`. -/
def Ty.toNat : Ty → Nat
  | .i32 => 0
  | .i64 => 1
  | .f32 => 2
  | .f64 => 3

/-- Memory access width of a peek or poke. -/
inductive MemSize where
  | byte
  | word
deriving DecidableEq, Repr

/-- Modelled from the spec: the storage mode of a `let` (`ast::LetType` is
absent from the snapshot).  The checker only distinguishes `inline` from the
rest: a local is materialised into a slot exactly when its mode is not
`inline`. -/
inductive LetType where
  | normal
  | inline
deriving DecidableEq, Repr

/-- Unary operators used by the checker (`ast::UnaryOp`). -/
inductive UnaryOp where
  | negate
  | not
deriving DecidableEq, Repr

/-- Binary operators, as consumed by the checker (`ast::BinOp`). -/
inductive BinOp where
  | add | sub | mul | div
  | rem | and | or | xor | shl | shrU | shrS | divU | remU
  | eq | ne | lt | le | gt | ge
  | ltU | leU | gtU | geU
deriving DecidableEq, Repr

mutual
/-- Modelled from the spec: an AST expression node carries a settable type
annotation (`None` = void), the expression variant and a span. -/
inductive Expression : Type where
  | mk (type_ : Option Ty) (expr : Expr) (span : Span)

/-- Modelled from the spec: the expression variants of `ast::Expr` as consumed
by `tc_expression`.  Integer payloads are `Int`; float payloads are kept as
their source text, which the checker never inspects. -/
inductive Expr : Type where
  | block (statements : List Expression) (final_expression : Option Expression)
  | letE (name : String) (type_ : Option Ty) (value : Option Expression)
      (let_type : LetType) (local_id : Option Nat)
  | peek (mem_location : MemoryLocation)
  | poke (mem_location : MemoryLocation) (value : Expression)
  | i32Const (v : Int)
  | i64Const (v : Int)
  | f32Const (v : String)
  | f64Const (v : String)
  | unaryOp (op : UnaryOp) (value : Expression)
  | binOp (op : BinOp) (left : Expression) (right : Expression)
  | var (name : String) (local_id : Option Nat)
  | assign (name : String) (value : Expression) (local_id : Option Nat)
  | localTee (name : String) (value : Expression) (local_id : Option Nat)
  | loopE (label : String) (block : Expression)
  | labelBlock (label : String) (block : Expression)
  | branch (label : String)
  | branchIf (condition : Expression) (label : String)
  | cast (value : Expression) (type_ : Ty)
  | funcCall (name : String) (params : List Expression)
  | select (condition : Expression) (if_true : Expression) (if_false : Expression)
  | ifE (condition : Expression) (if_true : Expression) (if_false : Option Expression)
  | ret (value : Option Expression)
  | first (value : Expression) (drop : Expression)
  | errorE

/-- Memory location: access width, base address expression, constant offset
expression (`ast::MemoryLocation`). -/
inductive MemoryLocation : Type where
  | mk (span : Span) (size : MemSize) (left : Expression) (right : Expression)
end

def Expression.type_ : Expression → Option Ty
  | .mk t _ _ => t

def Expression.expr : Expression → Expr
  | .mk _ e _ => e

def Expression.span : Expression → Span
  | .mk _ _ s => s

def MemoryLocation.left : MemoryLocation → Expression
  | .mk _ _ l _ => l

def MemoryLocation.right : MemoryLocation → Expression
  | .mk _ _ _ r => r

def MemoryLocation.size : MemoryLocation → MemSize
  | .mk _ s _ _ => s

/-- Entry of the global-variable symbol table (`Var` in typecheck.rs). -/
structure Var where
  span : Span
  type_ : Ty
  mutable_ : Bool
deriving DecidableEq, Repr

/-- Entry of the function symbol table (`FunctionType` in typecheck.rs). -/
structure FunctionType where
  span : Span
  params : List Ty
  type_ : Option Ty
deriving DecidableEq, Repr

/-- Modelled from the spec: one record of the per-function local arena —
span, name, type, and an optional storage slot index (`None` means the local
is purely symbolic, an inline let). -/
structure Local where
  span : Span
  name : String
  type_ : Ty
  index : Option Nat
deriving DecidableEq, Repr

instance : Inhabited Local :=
  ⟨⟨(0, 0), "", Ty.i32, none⟩⟩

/-- Modelled from the spec: the per-function arena of locals (`ast::Locals`),
split as typecheck.rs consumes it: the parameter records and the appended
non-parameter locals.  Arena ids first index the parameters, then the
locals. -/
structure Locals where
  params : List Local := []
  locals : List Local := []
deriving DecidableEq, Repr, Inhabited

/-- Modelled from the spec: `Locals::add_param` appends a parameter record
whose slot index is its position among the parameters and returns its arena
id. -/
def Locals.add_param (ls : Locals) (span : Span) (name : String) (t : Ty) :
    Locals × Nat :=
  let id := ls.params.length
  ({ ls with params := ls.params ++ [⟨span, name, t, some id⟩] }, id)

/-- Modelled from the spec: `Locals::add_local` appends a local record and
returns its arena id; a stored local receives a provisional slot index (its
arena id), an inline local receives none. -/
def Locals.add_local (ls : Locals) (span : Span) (name : String) (t : Ty)
    (store : Bool) : Locals × Nat :=
  let id := ls.params.length + ls.locals.length
  ({ ls with
      locals := ls.locals ++ [⟨span, name, t, if store then some id else none⟩] },
   id)

/-- Arena lookup by id: parameters first, then locals. -/
def Locals.get (ls : Locals) (id : Nat) : Local :=
  if id < ls.params.length then ls.params.getD id default
  else ls.locals.getD (id - ls.params.length) default

/-- Association-list lookup, modelling `HashMap::get`. -/
def alLookup {α : Type} (m : List (String × α)) (k : String) : Option α :=
  (m.find? (fun p => decide (p.1 = k))).map (fun p => p.2)

/-- The lexical scope stack (`LocalVars` in typecheck.rs): a stack of
name-to-arena-id maps, held innermost scope first. -/
abbrev LocalVars := List (List (String × Nat))

/-- `LocalVars::get`: walk the scopes innermost to outermost. -/
def lvGet : LocalVars → String → Option Nat
  | [], _ => none
  | s :: rest, name =>
    match alLookup s name with
    | some id => some id
    | none => lvGet rest name

/-- `LocalVars::get_in_current`: look only in the innermost scope.  (The
source unwraps the innermost scope; the stack is never empty when this is
reached.) -/
def lvGetInCurrent (lv : LocalVars) (name : String) : Option Nat :=
  alLookup (lv.headD []) name

/-- `LocalVars::push_scope`. -/
def lvPushScope (lv : LocalVars) : LocalVars :=
  [] :: lv

/-- `LocalVars::pop_scope`. -/
def lvPopScope (lv : LocalVars) : LocalVars :=
  lv.tail

/-- `LocalVars::insert` into the innermost scope.  (The source unwraps the
innermost scope and panics on an empty stack; that situation is unreachable,
and the model leaves an empty stack unchanged.) -/
def lvInsert (lv : LocalVars) (name : String) (id : Nat) : LocalVars :=
  match lv with
  | [] => []
  | s :: rest => ((name, id) :: s) :: rest

/-- Structured diagnostics, one constructor per report helper of
typecheck.rs.  Each carries the spans the printed report labels. -/
inductive Diag where
  | duplicateDefinition (msg : String) (span : Span) (prevSpan : Span)
  | typeMismatch (expected : Option Ty) (span1 : Span) (found : Option Ty) (span2 : Span)
  | expectedType (span : Span)
  | unknownVariable (span : Span)
  | immutableAssign (span : Span)
  | missingLabel (span : Span)
  | typeMissing (span : Span)
  | noMatchingFunction (span : Span) (candidates : List (List Ty × Option Ty))
  | unknownFunction (name : String) (span : Span)
  | expectedConstant (span : Span)
  | invalidStart (span : Span)
deriving DecidableEq, Repr

/-- The mutable checker state threaded through `tc_script` and
`tc_expression` (the `Context` of typecheck.rs, minus the immutable source
text and intrinsics table, which are passed separately). -/
structure TcState where
  global_vars : List (String × Var) := []
  functions : List (String × FunctionType) := []
  locals : Locals := {}
  local_vars : LocalVars := []
  block_stack : List String := []
  return_type : Option Ty := none
  diags : List Diag := []
deriving DecidableEq, Repr

/-- Record one diagnostic (the source prints it through the sink). -/
def TcState.emit (st : TcState) (d : Diag) : TcState :=
  { st with diags := st.diags ++ [d] }

/-- The intrinsics collaborator: overload sets keyed by name
(`Intrinsics::find_types`). -/
abbrev Intrinsics := String → Option (List (List Ty × Option Ty))

/-- Result of a checker step: `none` models exhausted recursion fuel (and the
`unreachable` error-placeholder arm); otherwise the updated state and either
success or the fail-fast `Err(())` of the source. -/
abbrev M (α : Type) := Option (TcState × Except Unit α)

/-- Sequencing that propagates fuel exhaustion and fail-fast errors, the `?`
operator of the source. -/
def mbind {α β : Type} (x : M α) (f : TcState → α → M β) : M β :=
  match x with
  | none => none
  | some (st, .error ()) => some (st, .error ())
  | some (st, .ok a) => f st a

/-- Successful result. -/
def mok {α : Type} (st : TcState) (a : α) : M α :=
  some (st, Except.ok a)

/-- Report a diagnostic and fail, as the source report helpers do. -/
def merr {α : Type} (st : TcState) (d : Diag) : M α :=
  some (st.emit d, Except.error ())

/-- `tc_const`: only the four literal constant forms are accepted; the node
is annotated with the matching type. -/
def tc_const : Expression → Except Diag Expression
  | .mk _ e span =>
    match e with
    | .i32Const v => .ok (.mk (some .i32) (.i32Const v) span)
    | .i64Const v => .ok (.mk (some .i64) (.i64Const v) span)
    | .f32Const v => .ok (.mk (some .f32) (.f32Const v) span)
    | .f64Const v => .ok (.mk (some .f64) (.f64Const v) span)
    | _ => .error (.expectedConstant span)

/-- Check a list of expressions in order (the statement loop of the `Block`
arm), threading the state. -/
def tcList (tce : TcState → Expression → M Expression) :
    TcState → List Expression → M (List Expression)
  | st, [] => mok st []
  | st, e :: rest =>
    mbind (tce st e) fun st e' =>
    mbind (tcList tce st rest) fun st rest' =>
    mok st (e' :: rest')

/-- Check call arguments in order; each must be non-void (the parameter loop
of the `FuncCall` arm). -/
def tcCallParams (tce : TcState → Expression → M Expression) :
    TcState → List Expression → M (List Expression)
  | st, [] => mok st []
  | st, e :: rest =>
    mbind (tce st e) fun st e' =>
    match e'.type_ with
    | none => merr st (.expectedType e'.span)
    | some _ =>
      mbind (tcCallParams tce st rest) fun st rest' =>
      mok st (e' :: rest')

/-- `tc_mem_location`: check the base address, check the offset as a
constant, then require both to be i32. -/
def tc_mem_location (tce : TcState → Expression → M Expression)
    (st : TcState) (m : MemoryLocation) : M MemoryLocation :=
  match m with
  | .mk mspan size left right =>
    mbind (tce st left) fun st left' =>
    match tc_const right with
    | .error d => merr st d
    | .ok right' =>
      if left'.type_ ≠ some Ty.i32 then
        merr st (.typeMismatch (some Ty.i32) left'.span left'.type_ left'.span)
      else if right'.type_ ≠ some Ty.i32 then
        merr st (.typeMismatch (some Ty.i32) right'.span right'.type_ right'.span)
      else mok st (.mk mspan size left' right')

/-- `tc_expression`: the single mutable pass over one expression tree.  The
fuel argument bounds the recursion depth; with fuel at least the tree depth
the result is exactly the behaviour of the source.  On success the returned
expression is the input annotated in place: every node carries its computed
type (`none` = void) and resolved locals carry their arena id. -/
def tc_expression (intr : Intrinsics) : Nat → TcState → Expression → M Expression
  | 0, _, _ => none
  | Nat.succ n, st, .mk _ e0 span =>
    match e0 with
    | .block statements final_expression =>
      let st := { st with local_vars := lvPushScope st.local_vars }
      mbind (tcList (tc_expression intr n) st statements) fun st statements' =>
      match final_expression with
      | some fe =>
        mbind (tc_expression intr n st fe) fun st fe' =>
        mok { st with local_vars := lvPopScope st.local_vars }
          (.mk fe'.type_ (.block statements' (some fe')) span)
      | none =>
        mok { st with local_vars := lvPopScope st.local_vars }
          (.mk none (.block statements' none) span)
    | .letE name tyOpt value lt _ =>
      let finish : TcState → Option Ty → Option Expression → M Expression :=
        fun st t' value' =>
          match t' with
          | some t =>
            let store : Bool := decide (lt ≠ LetType.inline)
            match (lvGetInCurrent st.local_vars name).filter (fun id =>
                decide ((st.locals.get id).type_ = t) &&
                  (store == (st.locals.get id).index.isSome)) with
            | some id =>
              mok { st with local_vars := lvInsert st.local_vars name id }
                (.mk none (.letE name (some t) value' lt (some id)) span)
            | none =>
              let p := st.locals.add_local span name t store
              mok { st with
                      locals := p.1
                      local_vars := lvInsert st.local_vars name p.2 }
                (.mk none (.letE name (some t) value' lt (some p.2)) span)
          | none => merr st (.typeMissing span)
      match value with
      | some v =>
        mbind (tc_expression intr n st v) fun st v' =>
        match tyOpt with
        | some t =>
          if some t ≠ v'.type_ then
            merr st (.typeMismatch (some t) span v'.type_ v'.span)
          else finish st (some t) (some v')
        | none =>
          match v'.type_ with
          | none => merr st (.expectedType v'.span)
          | some vt => finish st (some vt) (some v')
      | none => finish st tyOpt none
    | .peek m =>
      mbind (tc_mem_location (tc_expression intr n) st m) fun st m' =>
      mok st (.mk (some Ty.i32) (.peek m') span)
    | .poke m value =>
      mbind (tc_mem_location (tc_expression intr n) st m) fun st m' =>
      mbind (tc_expression intr n st value) fun st v' =>
      if v'.type_ ≠ some Ty.i32 then
        merr st (.typeMismatch (some Ty.i32) span v'.type_ v'.span)
      else mok st (.mk none (.poke m' v') span)
    | .i32Const v => mok st (.mk (some Ty.i32) (.i32Const v) span)
    | .i64Const v => mok st (.mk (some Ty.i64) (.i64Const v) span)
    | .f32Const v => mok st (.mk (some Ty.f32) (.f32Const v) span)
    | .f64Const v => mok st (.mk (some Ty.f64) (.f64Const v) span)
    | .unaryOp op value =>
      mbind (tc_expression intr n st value) fun st v' =>
      match v'.type_ with
      | none => merr st (.expectedType v'.span)
      | some t =>
        match op with
        | .negate => mok st (.mk (some t) (.unaryOp op v') span)
        | .not =>
          match t with
          | .i32 => mok st (.mk (some Ty.i32) (.unaryOp op v') span)
          | .i64 => mok st (.mk (some Ty.i32) (.unaryOp op v') span)
          | _ => merr st (.typeMismatch (some Ty.i32) span v'.type_ v'.span)
    | .binOp op left right =>
      mbind (tc_expression intr n st left) fun st left' =>
      mbind (tc_expression intr n st right) fun st right' =>
      match left'.type_ with
      | none => merr st (.expectedType left'.span)
      | some t =>
        if left'.type_ ≠ right'.type_ then
          merr st (.typeMismatch (some t) left'.span right'.type_ right'.span)
        else
          match op with
          | .add | .sub | .mul | .div =>
            mok st (.mk left'.type_ (.binOp op left' right') span)
          | .rem | .and | .or | .xor | .shl | .shrU | .shrS | .divU | .remU =>
            if left'.type_ ≠ some Ty.i32 ∧ left'.type_ ≠ some Ty.i64 then
              merr st (.typeMismatch (some Ty.i32) left'.span left'.type_ left'.span)
            else mok st (.mk left'.type_ (.binOp op left' right') span)
          | .eq | .ne | .lt | .le | .gt | .ge =>
            mok st (.mk (some Ty.i32) (.binOp op left' right') span)
          | .ltU | .leU | .gtU | .geU =>
            if left'.type_ ≠ some Ty.i32 ∧ left'.type_ ≠ some Ty.i64 then
              merr st (.typeMismatch (some Ty.i32) left'.span left'.type_ left'.span)
            else mok st (.mk (some Ty.i32) (.binOp op left' right') span)
    | .var name lid =>
      match lvGet st.local_vars name with
      | some id =>
        mok st (.mk (some (st.locals.get id).type_) (.var name (some id)) span)
      | none =>
        match alLookup st.global_vars name with
        | some g => mok st (.mk (some g.type_) (.var name lid) span)
        | none => merr st (.unknownVariable span)
    | .assign name value lid =>
      mbind (tc_expression intr n st value) fun st v' =>
      match lvGet st.local_vars name with
      | some id =>
        let l := st.locals.get id
        if l.index.isNone then merr st (.immutableAssign span)
        else if v'.type_ ≠ some l.type_ then
          merr st (.typeMismatch (some l.type_) l.span v'.type_ v'.span)
        else mok st (.mk none (.assign name v' (some id)) span)
      | none =>
        match alLookup st.global_vars name with
        | some g =>
          if g.mutable_ = false then merr st (.immutableAssign span)
          else if v'.type_ ≠ some g.type_ then
            merr st (.typeMismatch (some g.type_) g.span v'.type_ v'.span)
          else mok st (.mk none (.assign name v' lid) span)
        | none => merr st (.unknownVariable span)
    | .localTee name value _ =>
      mbind (tc_expression intr n st value) fun st v' =>
      match lvGet st.local_vars name with
      | some id =>
        let l := st.locals.get id
        if l.index.isNone then merr st (.immutableAssign span)
        else if v'.type_ ≠ some l.type_ then
          merr st (.typeMismatch (some l.type_) l.span v'.type_ v'.span)
        else mok st (.mk (some l.type_) (.localTee name v' (some id)) span)
      | none => merr st (.unknownVariable span)
    | .loopE label blk =>
      let st := { st with block_stack := label :: st.block_stack }
      mbind (tc_expression intr n st blk) fun st b' =>
      mok { st with block_stack := st.block_stack.tail }
        (.mk b'.type_ (.loopE label b') span)
    | .labelBlock label blk =>
      let st := { st with block_stack := label :: st.block_stack }
      mbind (tc_expression intr n st blk) fun st b' =>
      let st := { st with block_stack := st.block_stack.tail }
      match b'.type_ with
      | some t => merr st (.typeMismatch none span (some t) b'.span)
      | none => mok st (.mk none (.labelBlock label b') span)
    | .branch label =>
      if label ∈ st.block_stack then mok st (.mk none (.branch label) span)
      else merr st (.missingLabel span)
    | .branchIf condition label =>
      mbind (tc_expression intr n st condition) fun st c' =>
      if c'.type_ ≠ some Ty.i32 then
        merr st (.typeMismatch (some Ty.i32) span c'.type_ c'.span)
      else if label ∈ st.block_stack then
        mok st (.mk none (.branchIf c' label) span)
      else merr st (.missingLabel span)
    | .cast value t =>
      mbind (tc_expression intr n st value) fun st v' =>
      match v'.type_ with
      | none => merr st (.expectedType span)
      | some _ => mok st (.mk (some t) (.cast v' t) span)
    | .funcCall name params =>
      mbind (tcCallParams (tc_expression intr n) st params) fun st params' =>
      match
        (match alLookup st.functions name with
         | some fnc => some [(fnc.params, fnc.type_)]
         | none => intr name) with
      | some typeMap =>
        let argTypes := params'.map (fun p => p.type_.getD Ty.i32)
        match typeMap.find? (fun q => decide (q.1 = argTypes)) with
        | some q => mok st (.mk q.2 (.funcCall name params') span)
        | none => merr st (.noMatchingFunction span typeMap)
      | none => merr st (.unknownFunction name span)
    | .select condition if_true if_false =>
      mbind (tc_expression intr n st condition) fun st c' =>
      mbind (tc_expression intr n st if_true) fun st t' =>
      mbind (tc_expression intr n st if_false) fun st f' =>
      if c'.type_ ≠ some Ty.i32 then
        merr st (.typeMismatch (some Ty.i32) c'.span c'.type_ c'.span)
      else
        match t'.type_ with
        | some _ =>
          if t'.type_ ≠ f'.type_ then
            merr st (.typeMismatch t'.type_ t'.span f'.type_ f'.span)
          else mok st (.mk t'.type_ (.select c' t' f') span)
        | none => merr st (.expectedType t'.span)
    | .ifE condition if_true if_false =>
      mbind (tc_expression intr n st condition) fun st c' =>
      mbind (tc_expression intr n st if_true) fun st t' =>
      match if_false with
      | some fe =>
        mbind (tc_expression intr n st fe) fun st f' =>
        if t'.type_ ≠ f'.type_ then
          merr st (.typeMismatch t'.type_ t'.span f'.type_ f'.span)
        else mok st (.mk t'.type_ (.ifE c' t' (some f')) span)
      | none => mok st (.mk none (.ifE c' t' none) span)
    | .ret value =>
      match value with
      | some v =>
        mbind (tc_expression intr n st v) fun st v' =>
        if v'.type_ ≠ st.return_type then
          merr st (.typeMismatch st.return_type span v'.type_ v'.span)
        else mok st (.mk none (.ret (some v')) span)
      | none => mok st (.mk none (.ret none) span)
    | .first value drop =>
      mbind (tc_expression intr n st value) fun st v' =>
      mbind (tc_expression intr n st drop) fun st d' =>
      mok st (.mk v'.type_ (.first v' d') span)
    | .errorE => none

/-- Update the slot index of the local at a given position of the arena
(the in-place `context.locals.locals[index].index = ...` store). -/
def setLocalIndex : List Local → Nat → Option Nat → List Local
  | [], _, _ => []
  | l :: rest, 0, idx => { l with index := idx } :: rest
  | l :: rest, Nat.succ p, idx => l :: setLocalIndex rest p idx

/-- The `local_mapping` of tc_script: enumerate the non-parameter locals,
keep those holding a (provisional) slot, and record `(type, position)`. -/
def localMappingFrom : Nat → List Local → List (Ty × Nat)
  | _, [] => []
  | i, l :: rest =>
    if l.index.isSome then (l.type_, i) :: localMappingFrom (i + 1) rest
    else localMappingFrom (i + 1) rest

/-- Comparison used by `sort_by_key` on the first component: the derived
order of `ast::Type` (i32 < i64 < f32 < f64). -/
def tyleRel (a b : Ty × Nat) : Prop :=
  a.1.toNat ≤ b.1.toNat

instance : DecidableRel tyleRel :=
  fun a b => Nat.decLe a.1.toNat b.1.toNat

instance : IsTotal (Ty × Nat) tyleRel :=
  ⟨fun a b => Nat.le_total a.1.toNat b.1.toNat⟩

instance : IsTrans (Ty × Nat) tyleRel :=
  ⟨fun _ _ _ h1 h2 => Nat.le_trans h1 h2⟩

/-- The slot-assignment loop of tc_script: walk the sorted mapping and store
`locals_start + id` into the recorded arena position. -/
def applyMapping (start : Nat) : List Local → Nat → List (Ty × Nat) → List Local
  | acc, _, [] => acc
  | acc, id, q :: rest =>
    applyMapping start (setLocalIndex acc q.2 (some (start + id))) (id + 1) rest

/-- Slot assignment after a function body has been checked (tc_script lines
149-161): collect the stored locals, stable-sort them by type, and assign
slot indices sequentially starting at the parameter count. -/
def assign_local_slots (ls : Locals) : Locals :=
  { ls with
      locals := applyMapping ls.params.length ls.locals 0
        (List.insertionSort tyleRel (localMappingFrom 0 ls.locals)) }

/-- Modelled from the spec: an import item. -/
inductive ImportType where
  | memory (min_size : Nat)
  | var (name : String) (type_ : Ty) (mutable_ : Bool)
  | func (name : String) (params : List Ty) (result : Option Ty)
deriving Repr

structure Import where
  span : Span
  source_module : String
  type_ : ImportType
deriving Repr

/-- Modelled from the spec: a global variable declaration with an optional
declared type and a constant initializer. -/
structure GlobalVar where
  span : Span
  name : String
  type_ : Option Ty
  mutable_ : Bool
  value : Expression

/-- Modelled from the spec: a user function; `locals` is filled in by the
checker. -/
structure Function where
  span : Span
  export_ : Bool
  start : Bool
  name : String
  params : List (String × Ty)
  type_ : Option Ty
  body : Expression
  locals : Locals := {}

/-- Modelled from the spec: element type of a data segment. -/
inductive DataType where
  | i8
  | i16
  | i32
  | i64
  | f32
  | f64
deriving DecidableEq, Repr

/-- Modelled from the spec: the values of one data segment entry. -/
inductive DataValues where
  | array (type_ : DataType) (values : List Expression)
  | str (s : String)
  | file (path : String)

/-- Modelled from the spec: a data segment with a constant offset. -/
structure Data where
  offset : Expression
  data : List DataValues

/-- Modelled from the spec: the root script value. -/
structure Script where
  imports : List Import := []
  global_vars : List GlobalVar := []
  functions : List Function := []
  data : List Data := []

/-- Registration of imported variables and functions (tc_script lines
32-82): duplicates are reported and skipped, the loop continues. -/
def registerImports (st : TcState) (res : Except Unit Unit) :
    List Import → TcState × Except Unit Unit
  | [] => (st, res)
  | imp :: rest =>
    match imp.type_ with
    | .var name t m =>
      match alLookup st.global_vars name with
      | some prev =>
        registerImports
          (st.emit (.duplicateDefinition "Global already defined" imp.span prev.span))
          (Except.error ()) rest
      | none =>
        registerImports
          { st with global_vars := (name, ⟨imp.span, t, m⟩) :: st.global_vars }
          res rest
    | .func name ps rt =>
      match alLookup st.functions name with
      | some prev =>
        registerImports
          (st.emit (.duplicateDefinition "Function already defined" imp.span prev.span))
          (Except.error ()) rest
      | none =>
        registerImports
          { st with functions := (name, ⟨imp.span, ps, rt⟩) :: st.functions }
          res rest
    | .memory _ => registerImports st res rest

/-- Registration of global variable declarations (tc_script lines 84-105).
A failing constant check aborts the whole run (the source `?`); the final
component records that abort. -/
def registerGlobals (st : TcState) (res : Except Unit Unit) :
    List GlobalVar → TcState × Except Unit Unit × List GlobalVar × Bool
  | [] => (st, res, [], false)
  | v :: rest =>
    match alLookup st.global_vars v.name with
    | some prev =>
      match registerGlobals
          (st.emit (.duplicateDefinition "Global already defined" v.span prev.span))
          (Except.error ()) rest with
      | (st, res, rest', ab) => (st, res, v :: rest', ab)
    | none =>
      match tc_const v.value with
      | .error d => (st.emit d, res, v :: rest, true)
      | .ok value' =>
        let step :
            Option Ty × TcState × Except Unit Unit :=
          if v.type_ ≠ value'.type_ then
            if v.type_.isSome then
              (v.type_,
               st.emit (.typeMismatch v.type_ v.span value'.type_ value'.span),
               Except.error ())
            else (value'.type_, st, res)
          else (v.type_, st, res)
        let st :=
          { step.2.1 with
              global_vars :=
                (v.name, ⟨v.span, step.1.getD Ty.i32, v.mutable_⟩) :: step.2.1.global_vars }
        match registerGlobals st step.2.2 rest with
        | (st, res, rest', ab) =>
          (st, res, { v with type_ := step.1, value := value' } :: rest', ab)

/-- The dedicated signature pre-pass over all user functions (tc_script
lines 107-122), run before any body is checked. -/
def registerSignatures (st : TcState) (res : Except Unit Unit) :
    List Function → TcState × Except Unit Unit
  | [] => (st, res)
  | f :: rest =>
    match alLookup st.functions f.name with
    | some prev =>
      registerSignatures
        (st.emit (.duplicateDefinition "Function already defined" f.span prev.span))
        (Except.error ()) rest
    | none =>
      registerSignatures
        { st with
            functions :=
              (f.name, ⟨f.span, f.params.map (fun p => p.2), f.type_⟩) :: st.functions }
        res rest

/-- Parameter registration at the start of a function body check (tc_script
lines 127-144): a name already bound as a local or global is reported as a
duplicate and skipped, otherwise the parameter is added to the arena and the
scope. -/
def registerParams (st : TcState) (res : Except Unit Unit) (fspan : Span) :
    List (String × Ty) → TcState × Except Unit Unit
  | [] => (st, res)
  | (name, t) :: rest =>
    match
      (match lvGet st.local_vars name with
       | some id => some (st.locals.get id).span
       | none => (alLookup st.global_vars name).map (fun g => g.span)) with
    | some prev =>
      registerParams
        (st.emit (.duplicateDefinition "Variable already defined" fspan prev))
        (Except.error ()) fspan rest
    | none =>
      let p := st.locals.add_param fspan name t
      registerParams
        { st with locals := p.1, local_vars := lvInsert st.local_vars name p.2 }
        res fspan rest

/-- One iteration of the per-function body loop (tc_script lines 125-167):
clear the locals, push a fresh scope, register the parameters, set the
expected return type, check the body, assign slots, and compare the body
type against the declared return type.  The final component is true when the
body check failed, which aborts the whole run (the source `?`); in that case
the function is returned unannotated. -/
def tc_function (intr : Intrinsics) (fuel : Nat) (st0 : TcState)
    (res : Except Unit Unit) (f : Function) :
    Option (TcState × Except Unit Unit × Function × Bool) :=
  let st := { st0 with local_vars := lvPushScope [], locals := {} }
  let pr := registerParams st res f.span f.params
  let st := { pr.1 with return_type := f.type_ }
  match tc_expression intr fuel st f.body with
  | none => none
  | some (st, .error ()) => some (st, Except.error (), f, true)
  | some (st, .ok body') =>
    let newLocals := assign_local_slots st.locals
    let st := { st with locals := {} }
    let f' := { f with body := body', locals := newLocals }
    if body'.type_ ≠ f.type_ then
      some (st.emit (.typeMismatch f.type_ f.span body'.type_ body'.span),
            Except.error (), f', false)
    else some (st, pr.2, f', false)

/-- The per-function body loop over all functions. -/
def checkBodies (intr : Intrinsics) (fuel : Nat) :
    TcState → Except Unit Unit → List Function →
    Option (TcState × Except Unit Unit × List Function × Bool)
  | st, res, [] => some (st, res, [], false)
  | st, res, f :: rest =>
    match tc_function intr fuel st res f with
    | none => none
    | some (st, res, f', true) => some (st, res, f' :: rest, true)
    | some (st, res, f', false) =>
      match checkBodies intr fuel st res rest with
      | none => none
      | some (st, res, rest', ab) => some (st, res, f' :: rest', ab)

/-- Start-function validation (tc_script lines 170-198): a start function
may not have parameters or a return type, and only one may exist. -/
def checkStart (st : TcState) (res : Except Unit Unit) (prev : Option Function) :
    List Function → TcState × Except Unit Unit
  | [] => (st, res)
  | f :: rest =>
    if f.start then
      let sr :=
        if f.params ≠ [] ∨ f.type_.isSome then
          (st.emit (.invalidStart f.span), Except.error ())
        else (st, res)
      match prev with
      | some p =>
        checkStart
          (sr.1.emit (.duplicateDefinition "Start function already defined" f.span p.span))
          (Except.error ()) prev rest
      | none => checkStart sr.1 sr.2 (some f) rest
    else checkStart st res prev rest

/-- Numeric type required for the values of a data segment entry. -/
def neededType : DataType → Ty
  | .i8 => .i32
  | .i16 => .i32
  | .i32 => .i32
  | .i64 => .i64
  | .f32 => .f32
  | .f64 => .f64

/-- Constant checking of the values of one data array (tc_script lines
222-233); a failing constant check aborts the run. -/
def checkConstValues (st : TcState) (res : Except Unit Unit) (needed : Ty) :
    List Expression → TcState × Except Unit Unit × List Expression × Bool
  | [] => (st, res, [], false)
  | v :: rest =>
    match tc_const v with
    | .error d => (st.emit d, res, v :: rest, true)
    | .ok v' =>
      let sr :=
        if v'.type_ ≠ some needed then
          (st.emit (.typeMismatch (some needed) v'.span v'.type_ v'.span),
           Except.error ())
        else (st, res)
      match checkConstValues sr.1 sr.2 needed rest with
      | (st, res, rest', ab) => (st, res, v' :: rest', ab)

/-- Check the value groups of one data segment. -/
def checkDataValues (st : TcState) (res : Except Unit Unit) :
    List DataValues → TcState × Except Unit Unit × List DataValues × Bool
  | [] => (st, res, [], false)
  | DataValues.array t values :: rest =>
    match checkConstValues st res (neededType t) values with
    | (st, res, values', true) => (st, res, DataValues.array t values' :: rest, true)
    | (st, res, values', false) =>
      match checkDataValues st res rest with
      | (st, res, rest', ab) => (st, res, DataValues.array t values' :: rest', ab)
  | other :: rest =>
    match checkDataValues st res rest with
    | (st, res, rest', ab) => (st, res, other :: rest', ab)

/-- Data-segment checking (tc_script lines 200-238): the offset must be an
i32 constant, the values must be constants of the element type. -/
def checkData (st : TcState) (res : Except Unit Unit) :
    List Data → TcState × Except Unit Unit × List Data × Bool
  | [] => (st, res, [], false)
  | d :: rest =>
    match tc_const d.offset with
    | .error dg => (st.emit dg, res, d :: rest, true)
    | .ok offset' =>
      let sr :=
        if offset'.type_ ≠ some Ty.i32 then
          (st.emit (.typeMismatch (some Ty.i32) offset'.span offset'.type_ offset'.span),
           Except.error ())
        else (st, res)
      match checkDataValues sr.1 sr.2 d.data with
      | (st, res, values', true) =>
        (st, res, { d with offset := offset', data := values' } :: rest, true)
      | (st, res, values', false) =>
        match checkData st res rest with
        | (st, res, rest', ab) =>
          (st, res, { d with offset := offset', data := values' } :: rest', ab)

/-- `tc_script`: the whole pipeline over one script.  Diagnostics are
accumulated in the returned state; the returned script is the input with the
in-place annotations the source makes; the final component is the returned
`Result`.  `none` models exhausted fuel inside a function body. -/
def tc_script (intr : Intrinsics) (fuel : Nat) (script : Script) :
    Option (TcState × Script × Except Unit Unit) :=
  let p1 := registerImports ({} : TcState) (Except.ok ()) script.imports
  match registerGlobals p1.1 p1.2 script.global_vars with
  | (st, _, globals', true) =>
    some (st, { script with global_vars := globals' }, Except.error ())
  | (st, res, globals', false) =>
    let p3 := registerSignatures st res script.functions
    match checkBodies intr fuel p3.1 p3.2 script.functions with
    | none => none
    | some (st, _, functions', true) =>
      some (st, { script with global_vars := globals', functions := functions' },
            Except.error ())
    | some (st, res, functions', false) =>
      let p5 := checkStart st res none functions'
      match checkData p5.1 p5.2 script.data with
      | (st, _, data', true) =>
        some (st,
              { script with global_vars := globals', functions := functions', data := data' },
              Except.error ())
      | (st, res, data', false) =>
        some (st,
              { script with global_vars := globals', functions := functions', data := data' },
              res)

theorem mbind_ok_iff {α β : Type} (x : M α) (f : TcState → α → M β)
    (st' : TcState) (b : β) :
    mbind x f = some (st', Except.ok b) ↔
      ∃ st1 a, x = some (st1, Except.ok a) ∧ f st1 a = some (st', Except.ok b) := by
  constructor
  · intro h
    match hx : x with
    | none => simp [mbind, hx] at h
    | some (st1, Except.error ()) => simp [mbind, hx] at h
    | some (st1, Except.ok a) =>
      exact ⟨st1, a, rfl, by simpa [mbind, hx] using h⟩
  · rintro ⟨st1, a, hx, hf⟩
    simp [mbind, hx, hf]

theorem mok_ok_iff {α : Type} (st : TcState) (a : α) (st' : TcState) (b : α) :
    mok st a = some (st', Except.ok b) ↔ st' = st ∧ b = a := by
  constructor
  · intro h
    simp only [mok, Option.some.injEq, Prod.mk.injEq, Except.ok.injEq] at h
    exact ⟨h.1.symm, h.2.symm⟩
  · rintro ⟨rfl, rfl⟩
    rfl

theorem merr_ne_ok {α : Type} (st : TcState) (d : Diag) (st' : TcState) (b : α) :
    merr st d ≠ some (st', Except.ok b) := by
  simp [merr]

/-- The state components that every successful `tc_expression` call leaves
intact: the symbol tables, the expected return type, the label stack, the
depth of the scope stack together with all scopes below the innermost one,
the emitted diagnostics, and the parameter records of the arena. -/
def StInv (st st' : TcState) : Prop :=
  st'.functions = st.functions ∧ st'.global_vars = st.global_vars ∧
  st'.return_type = st.return_type ∧ st'.block_stack = st.block_stack ∧
  st'.local_vars.length = st.local_vars.length ∧
  st'.local_vars.tail = st.local_vars.tail ∧
  st'.diags = st.diags ∧ st'.locals.params = st.locals.params

theorem StInv.refl (st : TcState) : StInv st st :=
  ⟨rfl, rfl, rfl, rfl, rfl, rfl, rfl, rfl⟩

theorem StInv.trans {st1 st2 st3 : TcState} (h1 : StInv st1 st2)
    (h2 : StInv st2 st3) : StInv st1 st3 := by
  obtain ⟨a1, b1, c1, d1, e1, f1, g1, p1⟩ := h1
  obtain ⟨a2, b2, c2, d2, e2, f2, g2, p2⟩ := h2
  exact ⟨a2.trans a1, b2.trans b1, c2.trans c1, d2.trans d1, e2.trans e1,
    f2.trans f1, g2.trans g1, p2.trans p1⟩

theorem lvInsert_length (lv : LocalVars) (name : String) (id : Nat) :
    (lvInsert lv name id).length = lv.length := by
  cases lv <;> simp [lvInsert]

theorem lvInsert_tail (lv : LocalVars) (name : String) (id : Nat) :
    (lvInsert lv name id).tail = lv.tail := by
  cases lv <;> simp [lvInsert]

theorem add_local_params (ls : Locals) (span : Span) (name : String) (t : Ty)
    (store : Bool) : (ls.add_local span name t store).1.params = ls.params := by
  simp [Locals.add_local]

theorem tcList_inv (tce : TcState → Expression → M Expression)
    (htce : ∀ st e st' e', tce st e = some (st', Except.ok e') → StInv st st') :
    ∀ l st st' l', tcList tce st l = some (st', Except.ok l') → StInv st st' := by
  intro l
  induction l with
  | nil =>
    intro st st' l' h
    rw [tcList, mok_ok_iff] at h
    rw [h.1]
    exact StInv.refl st
  | cons e rest ih =>
    intro st st' l' h
    rw [tcList, mbind_ok_iff] at h
    obtain ⟨st1, e', h1, h2⟩ := h
    rw [mbind_ok_iff] at h2
    obtain ⟨st2, rest', h3, h4⟩ := h2
    rw [mok_ok_iff] at h4
    rw [h4.1]
    exact (htce _ _ _ _ h1).trans (ih _ _ _ h3)

theorem tcCallParams_inv (tce : TcState → Expression → M Expression)
    (htce : ∀ st e st' e', tce st e = some (st', Except.ok e') → StInv st st') :
    ∀ l st st' l', tcCallParams tce st l = some (st', Except.ok l') → StInv st st' := by
  intro l
  induction l with
  | nil =>
    intro st st' l' h
    rw [tcCallParams, mok_ok_iff] at h
    rw [h.1]
    exact StInv.refl st
  | cons e rest ih =>
    intro st st' l' h
    rw [tcCallParams, mbind_ok_iff] at h
    obtain ⟨st1, e', h1, h2⟩ := h
    match hty : e'.type_ with
    | none =>
      rw [hty] at h2
      exact absurd h2 (merr_ne_ok _ _ _ _)
    | some t =>
      rw [hty] at h2
      rw [mbind_ok_iff] at h2
      obtain ⟨st2, rest', h3, h4⟩ := h2
      rw [mok_ok_iff] at h4
      rw [h4.1]
      exact (htce _ _ _ _ h1).trans (ih _ _ _ h3)

theorem tc_mem_location_inv (tce : TcState → Expression → M Expression)
    (htce : ∀ st e st' e', tce st e = some (st', Except.ok e') → StInv st st')
    (st : TcState) (m : MemoryLocation) (st' : TcState) (m' : MemoryLocation)
    (h : tc_mem_location tce st m = some (st', Except.ok m')) : StInv st st' := by
  obtain ⟨mspan, size, left, right⟩ := m
  rw [tc_mem_location] at h
  rw [mbind_ok_iff] at h
  obtain ⟨st1, left', h1, h2⟩ := h
  match hc : tc_const right with
  | .error d =>
    simp only [hc] at h2
    exact absurd h2 (merr_ne_ok _ _ _ _)
  | .ok right' =>
    simp only [hc] at h2
    split at h2
    · exact absurd h2 (merr_ne_ok _ _ _ _)
    · split at h2
      · exact absurd h2 (merr_ne_ok _ _ _ _)
      · rw [mok_ok_iff] at h2
        rw [h2.1]
        exact htce _ _ _ _ h1

theorem StInv.of_fields {st st1 : TcState} (h : StInv st st1) {st2 : TcState}
    (hf : st2.functions = st1.functions) (hg : st2.global_vars = st1.global_vars)
    (hr : st2.return_type = st1.return_type) (hb : st2.block_stack = st1.block_stack)
    (hlen : st2.local_vars.length = st1.local_vars.length)
    (htl : st2.local_vars.tail = st1.local_vars.tail)
    (hd : st2.diags = st1.diags) (hp : st2.locals.params = st1.locals.params) :
    StInv st st2 :=
  h.trans ⟨hf, hg, hr, hb, hlen, htl, hd, hp⟩

theorem StInv.block_restore {st st2 : TcState}
    (h : StInv { st with local_vars := lvPushScope st.local_vars } st2) :
    StInv st { st2 with local_vars := lvPopScope st2.local_vars } := by
  obtain ⟨hf, hg, hr, hb, hlen, htl, hd, hp⟩ := h
  simp only [lvPushScope] at htl
  exact ⟨hf, hg, hr, hb, by simp [lvPopScope, htl], by simp [lvPopScope, htl], hd, hp⟩

theorem StInv.label_restore {label : String} {st st2 : TcState}
    (h : StInv { st with block_stack := label :: st.block_stack } st2) :
    StInv st { st2 with block_stack := st2.block_stack.tail } := by
  obtain ⟨hf, hg, hr, hb, hlen, htl, hd, hp⟩ := h
  simp only at hb
  exact ⟨hf, hg, hr, by simp [hb], hlen, htl, hd, hp⟩

/-- Master invariance lemma: a successful `tc_expression` call restores the
label stack, the scope-stack depth and every scope below the innermost one,
and leaves the symbol tables, expected return type, diagnostics and
parameter records untouched. -/
theorem tc_expression_inv (intr : Intrinsics) :
    ∀ fuel st e st' e',
      tc_expression intr fuel st e = some (st', Except.ok e') → StInv st st' := by
  intro fuel
  induction fuel with
  | zero =>
    intro st e st' e' h
    simp [tc_expression] at h
  | succ n ih =>
    intro st e st' e' h
    obtain ⟨t0, e0, sp⟩ := e
    cases e0 with
    | block statements final_expression =>
      cases final_expression with
      | some fe =>
        simp only [tc_expression] at h
        rw [mbind_ok_iff] at h
        obtain ⟨st1, stmts', h1, h2⟩ := h
        have hs := tcList_inv (tc_expression intr n) ih statements _ _ _ h1
        rw [mbind_ok_iff] at h2
        obtain ⟨st2, fe', h3, h4⟩ := h2
        rw [mok_ok_iff] at h4
        rw [h4.1]
        exact StInv.block_restore (hs.trans (ih _ _ _ _ h3))
      | none =>
        simp only [tc_expression] at h
        rw [mbind_ok_iff] at h
        obtain ⟨st1, stmts', h1, h2⟩ := h
        have hs := tcList_inv (tc_expression intr n) ih statements _ _ _ h1
        rw [mok_ok_iff] at h2
        rw [h2.1]
        exact StInv.block_restore hs
    | letE name tyOpt value lt lid =>
      cases value with
      | none =>
        cases tyOpt with
        | none =>
          simp only [tc_expression] at h
          exact absurd h (merr_ne_ok _ _ _ _)
        | some t =>
          simp only [tc_expression] at h
          split at h <;> rw [mok_ok_iff] at h <;> rw [h.1]
          · exact (StInv.refl st).of_fields rfl rfl rfl rfl
              (lvInsert_length _ _ _) (lvInsert_tail _ _ _) rfl rfl
          · exact (StInv.refl st).of_fields rfl rfl rfl rfl
              (lvInsert_length _ _ _) (lvInsert_tail _ _ _) rfl
              (add_local_params _ _ _ _ _)
      | some v =>
        cases tyOpt with
        | some t =>
          simp only [tc_expression] at h
          rw [mbind_ok_iff] at h
          obtain ⟨st1, v', h1, h2⟩ := h
          have hv := ih _ _ _ _ h1
          split at h2
          · exact absurd h2 (merr_ne_ok _ _ _ _)
          · split at h2 <;> rw [mok_ok_iff] at h2 <;> rw [h2.1]
            · exact hv.of_fields rfl rfl rfl rfl
                (lvInsert_length _ _ _) (lvInsert_tail _ _ _) rfl rfl
            · exact hv.of_fields rfl rfl rfl rfl
                (lvInsert_length _ _ _) (lvInsert_tail _ _ _) rfl
                (add_local_params _ _ _ _ _)
        | none =>
          simp only [tc_expression] at h
          rw [mbind_ok_iff] at h
          obtain ⟨st1, v', h1, h2⟩ := h
          have hv := ih _ _ _ _ h1
          match hty : v'.type_ with
          | none =>
            simp only [hty] at h2
            exact absurd h2 (merr_ne_ok _ _ _ _)
          | some vt =>
            simp only [hty] at h2
            split at h2 <;> rw [mok_ok_iff] at h2 <;> rw [h2.1]
            · exact hv.of_fields rfl rfl rfl rfl
                (lvInsert_length _ _ _) (lvInsert_tail _ _ _) rfl rfl
            · exact hv.of_fields rfl rfl rfl rfl
                (lvInsert_length _ _ _) (lvInsert_tail _ _ _) rfl
                (add_local_params _ _ _ _ _)
    | peek m =>
      simp only [tc_expression] at h
      rw [mbind_ok_iff] at h
      obtain ⟨st1, m', h1, h2⟩ := h
      rw [mok_ok_iff] at h2
      rw [h2.1]
      exact tc_mem_location_inv _ ih _ _ _ _ h1
    | poke m value =>
      simp only [tc_expression] at h
      rw [mbind_ok_iff] at h
      obtain ⟨st1, m', h1, h2⟩ := h
      rw [mbind_ok_iff] at h2
      obtain ⟨st2, v', h3, h4⟩ := h2
      have hst : st' = st2 := by
        split at h4
        · exact absurd h4 (merr_ne_ok _ _ _ _)
        · exact ((mok_ok_iff _ _ _ _).mp h4).1
      rw [hst]
      exact (tc_mem_location_inv _ ih _ _ _ _ h1).trans (ih _ _ _ _ h3)
    | i32Const v =>
      simp only [tc_expression] at h
      rw [mok_ok_iff] at h
      rw [h.1]
      exact StInv.refl st
    | i64Const v =>
      simp only [tc_expression] at h
      rw [mok_ok_iff] at h
      rw [h.1]
      exact StInv.refl st
    | f32Const v =>
      simp only [tc_expression] at h
      rw [mok_ok_iff] at h
      rw [h.1]
      exact StInv.refl st
    | f64Const v =>
      simp only [tc_expression] at h
      rw [mok_ok_iff] at h
      rw [h.1]
      exact StInv.refl st
    | unaryOp op value =>
      simp only [tc_expression] at h
      rw [mbind_ok_iff] at h
      obtain ⟨st1, v', h1, h2⟩ := h
      have hst : st' = st1 := by
        repeat' split at h2
        all_goals
          first
            | exact absurd h2 (merr_ne_ok _ _ _ _)
            | exact ((mok_ok_iff _ _ _ _).mp h2).1
      rw [hst]
      exact ih _ _ _ _ h1
    | binOp op left right =>
      simp only [tc_expression] at h
      rw [mbind_ok_iff] at h
      obtain ⟨st1, l', h1, h2⟩ := h
      rw [mbind_ok_iff] at h2
      obtain ⟨st2, r', h3, h4⟩ := h2
      have hst : st' = st2 := by
        repeat' split at h4
        all_goals
          first
            | exact absurd h4 (merr_ne_ok _ _ _ _)
            | exact ((mok_ok_iff _ _ _ _).mp h4).1
      rw [hst]
      exact (ih _ _ _ _ h1).trans (ih _ _ _ _ h3)
    | var name lid =>
      simp only [tc_expression] at h
      have hst : st' = st := by
        repeat' split at h
        all_goals
          first
            | exact absurd h (merr_ne_ok _ _ _ _)
            | exact ((mok_ok_iff _ _ _ _).mp h).1
      rw [hst]
      exact StInv.refl st
    | assign name value lid =>
      simp only [tc_expression] at h
      rw [mbind_ok_iff] at h
      obtain ⟨st1, v', h1, h2⟩ := h
      have hst : st' = st1 := by
        repeat' split at h2
        all_goals
          first
            | exact absurd h2 (merr_ne_ok _ _ _ _)
            | exact ((mok_ok_iff _ _ _ _).mp h2).1
      rw [hst]
      exact ih _ _ _ _ h1
    | localTee name value lid =>
      simp only [tc_expression] at h
      rw [mbind_ok_iff] at h
      obtain ⟨st1, v', h1, h2⟩ := h
      have hst : st' = st1 := by
        repeat' split at h2
        all_goals
          first
            | exact absurd h2 (merr_ne_ok _ _ _ _)
            | exact ((mok_ok_iff _ _ _ _).mp h2).1
      rw [hst]
      exact ih _ _ _ _ h1
    | loopE label blk =>
      simp only [tc_expression] at h
      rw [mbind_ok_iff] at h
      obtain ⟨st2, b', h1, h2⟩ := h
      rw [mok_ok_iff] at h2
      rw [h2.1]
      exact StInv.label_restore (ih _ _ _ _ h1)
    | labelBlock label blk =>
      simp only [tc_expression] at h
      rw [mbind_ok_iff] at h
      obtain ⟨st2, b', h1, h2⟩ := h
      have hst : st' = { st2 with block_stack := st2.block_stack.tail } := by
        split at h2
        · exact absurd h2 (merr_ne_ok _ _ _ _)
        · exact ((mok_ok_iff _ _ _ _).mp h2).1
      rw [hst]
      exact StInv.label_restore (ih _ _ _ _ h1)
    | branch label =>
      simp only [tc_expression] at h
      have hst : st' = st := by
        split at h
        · exact ((mok_ok_iff _ _ _ _).mp h).1
        · exact absurd h (merr_ne_ok _ _ _ _)
      rw [hst]
      exact StInv.refl st
    | branchIf condition label =>
      simp only [tc_expression] at h
      rw [mbind_ok_iff] at h
      obtain ⟨st1, c', h1, h2⟩ := h
      have hst : st' = st1 := by
        repeat' split at h2
        all_goals
          first
            | exact absurd h2 (merr_ne_ok _ _ _ _)
            | exact ((mok_ok_iff _ _ _ _).mp h2).1
      rw [hst]
      exact ih _ _ _ _ h1
    | cast value t =>
      simp only [tc_expression] at h
      rw [mbind_ok_iff] at h
      obtain ⟨st1, v', h1, h2⟩ := h
      have hst : st' = st1 := by
        repeat' split at h2
        all_goals
          first
            | exact absurd h2 (merr_ne_ok _ _ _ _)
            | exact ((mok_ok_iff _ _ _ _).mp h2).1
      rw [hst]
      exact ih _ _ _ _ h1
    | funcCall name params =>
      simp only [tc_expression] at h
      rw [mbind_ok_iff] at h
      obtain ⟨st1, params', h1, h2⟩ := h
      have hst : st' = st1 := by
        repeat' split at h2
        all_goals
          first
            | exact absurd h2 (merr_ne_ok _ _ _ _)
            | exact ((mok_ok_iff _ _ _ _).mp h2).1
      rw [hst]
      exact tcCallParams_inv (tc_expression intr n) ih params _ _ _ h1
    | select condition if_true if_false =>
      simp only [tc_expression] at h
      rw [mbind_ok_iff] at h
      obtain ⟨st1, c', h1, h2⟩ := h
      rw [mbind_ok_iff] at h2
      obtain ⟨st2, t', h3, h4⟩ := h2
      rw [mbind_ok_iff] at h4
      obtain ⟨st3, f', h5, h6⟩ := h4
      have hst : st' = st3 := by
        repeat' split at h6
        all_goals
          first
            | exact absurd h6 (merr_ne_ok _ _ _ _)
            | exact ((mok_ok_iff _ _ _ _).mp h6).1
      rw [hst]
      exact ((ih _ _ _ _ h1).trans (ih _ _ _ _ h3)).trans (ih _ _ _ _ h5)
    | ifE condition if_true if_false =>
      cases if_false with
      | some fe =>
        simp only [tc_expression] at h
        rw [mbind_ok_iff] at h
        obtain ⟨st1, c', h1, h2⟩ := h
        rw [mbind_ok_iff] at h2
        obtain ⟨st2, t', h3, h4⟩ := h2
        rw [mbind_ok_iff] at h4
        obtain ⟨st3, f', h5, h6⟩ := h4
        have hst : st' = st3 := by
          repeat' split at h6
          all_goals
            first
              | exact absurd h6 (merr_ne_ok _ _ _ _)
              | exact ((mok_ok_iff _ _ _ _).mp h6).1
        rw [hst]
        exact ((ih _ _ _ _ h1).trans (ih _ _ _ _ h3)).trans (ih _ _ _ _ h5)
      | none =>
        simp only [tc_expression] at h
        rw [mbind_ok_iff] at h
        obtain ⟨st1, c', h1, h2⟩ := h
        rw [mbind_ok_iff] at h2
        obtain ⟨st2, t', h3, h4⟩ := h2
        rw [mok_ok_iff] at h4
        rw [h4.1]
        exact (ih _ _ _ _ h1).trans (ih _ _ _ _ h3)
    | ret value =>
      cases value with
      | none =>
        simp only [tc_expression] at h
        rw [mok_ok_iff] at h
        rw [h.1]
        exact StInv.refl st
      | some v =>
        simp only [tc_expression] at h
        rw [mbind_ok_iff] at h
        obtain ⟨st1, v', h1, h2⟩ := h
        have hst : st' = st1 := by
          repeat' split at h2
          all_goals
            first
              | exact absurd h2 (merr_ne_ok _ _ _ _)
              | exact ((mok_ok_iff _ _ _ _).mp h2).1
        rw [hst]
        exact ih _ _ _ _ h1
    | first value drop =>
      simp only [tc_expression] at h
      rw [mbind_ok_iff] at h
      obtain ⟨st1, v', h1, h2⟩ := h
      rw [mbind_ok_iff] at h2
      obtain ⟨st2, d', h3, h4⟩ := h2
      rw [mok_ok_iff] at h4
      rw [h4.1]
      exact (ih _ _ _ _ h1).trans (ih _ _ _ _ h3)
    | errorE =>
      simp [tc_expression] at h

/-- Intrinsics table with no entries, used for concrete runs. -/
def noIntr : Intrinsics := fun _ => none

/-- C10 counterexample: checking a `let` in the current scope mutates the
innermost scope map (it inserts the binding), so the scope stack is not
restored to exactly its contents at entry even though the call succeeds. -/
theorem c10_counterexample :
    tc_expression noIntr 1 ({ local_vars := [[]] } : TcState)
        (.mk none (.letE "x" (some Ty.i32) none LetType.normal none) (0, 1))
      = some ({ local_vars := [[("x", 0)]]
                locals := { params := [], locals := [⟨(0, 1), "x", Ty.i32, some 0⟩] } },
              Except.ok (.mk none (.letE "x" (some Ty.i32) none LetType.normal (some 0)) (0, 1)))
    ∧ ([[("x", 0)]] : LocalVars) ≠ ([[]] : LocalVars) := by
  exact ⟨rfl, by decide⟩

/-- C10 (amended): whenever `tc_expression` returns successfully, the active
label stack is restored exactly, and the scope stack regains its entry depth
with every scope below the innermost one untouched (each pushed scope and
label is popped); the innermost scope itself may however gain or update
bindings from `let` expressions. -/
theorem c10_stack_restore (intr : Intrinsics) (fuel : Nat) (st : TcState)
    (e : Expression) (st' : TcState) (e' : Expression)
    (h : tc_expression intr fuel st e = some (st', Except.ok e')) :
    st'.block_stack = st.block_stack ∧
    st'.local_vars.length = st.local_vars.length ∧
    st'.local_vars.tail = st.local_vars.tail := by
  obtain ⟨_, _, _, hb, hlen, htl, _, _⟩ := tc_expression_inv intr fuel st e st' e' h
  exact ⟨hb, hlen, htl⟩

/-- C10 witness: the amended statement applied to a concrete block. -/
theorem c10_witness :
    tc_expression noIntr 1 ({ block_stack := ["a"] } : TcState)
        (.mk none (.block [] none) (0, 1))
      = some ({ block_stack := ["a"] }, Except.ok (.mk none (.block [] none) (0, 1)))
    ∧ (({ block_stack := ["a"] } : TcState).block_stack = ["a"]
       ∧ ([] : LocalVars).length = ([] : LocalVars).length
       ∧ ([] : LocalVars).tail = ([] : LocalVars).tail) := by
  refine ⟨rfl, ?_⟩
  exact c10_stack_restore noIntr 1 ({ block_stack := ["a"] } : TcState)
    (.mk none (.block [] none) (0, 1)) ({ block_stack := ["a"] } : TcState)
    (.mk none (.block [] none) (0, 1)) rfl

/-- C2 counterexample: two `let` declarations binding the same name in the
same lexical scope type-check successfully and emit no diagnostic at all
(the final diagnostics list is empty); the second declaration silently
reuses the local of the first. -/
theorem c2_counterexample :
    tc_expression noIntr 5 ({ local_vars := [[]] } : TcState)
      (.mk none (.block
        [.mk none (.letE "x" (some Ty.i32) none LetType.normal none) (1, 2),
         .mk none (.letE "x" (some Ty.i32) none LetType.normal none) (3, 4)] none) (0, 10))
    = some ({ local_vars := [[]]
              locals := { params := [], locals := [⟨(1, 2), "x", Ty.i32, some 0⟩] } },
            Except.ok (.mk none (.block
              [.mk none (.letE "x" (some Ty.i32) none LetType.normal (some 0)) (1, 2),
               .mk none (.letE "x" (some Ty.i32) none LetType.normal (some 0)) (3, 4)] none) (0, 10))) :=
  rfl

/-- C2 (amended): a `let` whose name is already bound in the current scope is
accepted without any diagnostic; when the existing local has the same type
and the same storage mode, the declaration resolves to the existing arena id
(no new local is created) and the state is unchanged apart from the scope
binding. -/
theorem c2_let_redeclaration (intr : Intrinsics) (fuel : Nat) (st : TcState)
    (name : String) (t : Ty) (lt : LetType) (lid : Option Nat) (t0 : Option Ty)
    (sp : Span) (id : Nat)
    (hget : lvGetInCurrent st.local_vars name = some id)
    (hty : (st.locals.get id).type_ = t)
    (hst : (st.locals.get id).index.isSome = decide (lt ≠ LetType.inline)) :
    tc_expression intr (fuel + 1) st (.mk t0 (.letE name (some t) none lt lid) sp)
      = some ({ st with local_vars := lvInsert st.local_vars name id },
              Except.ok (.mk none (.letE name (some t) none lt (some id)) sp)) := by
  have hpred : (decide ((st.locals.get id).type_ = t) &&
      (decide (lt ≠ LetType.inline) == (st.locals.get id).index.isSome)) = true := by
    rw [hty, hst]
    simp
  simp only [tc_expression, hget, Option.filter, hpred, if_true]
  rfl

/-- C2 witness: the amended statement applied to a concrete redeclaration. -/
theorem c2_witness :
    lvGetInCurrent ([[("x", 0)]] : LocalVars) "x" = some 0
    ∧ ((({ local_vars := [[("x", 0)]]
           locals := { params := [], locals := [⟨(1, 2), "x", Ty.i32, some 0⟩] } } : TcState).locals.get 0).type_
        = Ty.i32)
    ∧ tc_expression noIntr 1
        ({ local_vars := [[("x", 0)]]
           locals := { params := [], locals := [⟨(1, 2), "x", Ty.i32, some 0⟩] } } : TcState)
        (.mk none (.letE "x" (some Ty.i32) none LetType.normal none) (3, 4))
      = some ({ local_vars := [[("x", 0), ("x", 0)]]
                locals := { params := [], locals := [⟨(1, 2), "x", Ty.i32, some 0⟩] } },
              Except.ok (.mk none (.letE "x" (some Ty.i32) none LetType.normal (some 0)) (3, 4))) := by
  refine ⟨rfl, rfl, ?_⟩
  exact c2_let_redeclaration noIntr 0 _ "x" Ty.i32 LetType.normal none none (3, 4) 0 rfl rfl (by decide)

/-- C3 counterexample: a `return` with no value inside a function whose
declared return type is i32 type-checks successfully, with void type and no
diagnostic, contradicting the claim that it fails with a type mismatch. -/
theorem c3_counterexample :
    tc_expression noIntr 1 ({ return_type := some Ty.i32 } : TcState)
      (.mk none (.ret none) (0, 1))
    = some ({ return_type := some Ty.i32 }, Except.ok (.mk none (.ret none) (0, 1))) :=
  rfl

/-- C3 (amended): a `return` with a value succeeds exactly when the value
type equals the declared return type and fails with a type mismatch
otherwise, but a `return` with no value is accepted with void type
regardless of the declared return type. -/
theorem c3_return_rules (intr : Intrinsics) (fuel : Nat) (st : TcState)
    (t0 : Option Ty) (sp : Span) :
    (tc_expression intr (fuel + 1) st (.mk t0 (.ret none) sp)
      = some (st, Except.ok (.mk none (.ret none) sp)))
    ∧ (∀ v st1 v', tc_expression intr fuel st v = some (st1, Except.ok v') →
        (v'.type_ = st1.return_type →
          tc_expression intr (fuel + 1) st (.mk t0 (.ret (some v)) sp)
            = some (st1, Except.ok (.mk none (.ret (some v')) sp)))
        ∧ (v'.type_ ≠ st1.return_type →
          tc_expression intr (fuel + 1) st (.mk t0 (.ret (some v)) sp)
            = some (st1.emit (.typeMismatch st1.return_type sp v'.type_ v'.span),
                    Except.error ()))) := by
  constructor
  · rfl
  · intro v st1 v' hv
    constructor
    · intro heq
      simp only [tc_expression, mbind, hv]
      rw [if_neg (by simp [heq])]
      rfl
    · intro hne
      simp only [tc_expression, mbind, hv]
      rw [if_pos hne]
      rfl

/-- C3 witness: the amended statement applied to a concrete matching
return. -/
theorem c3_witness :
    tc_expression noIntr 1 ({ return_type := some Ty.i32 } : TcState)
        (.mk none (.i32Const 7) (1, 2))
      = some ({ return_type := some Ty.i32 },
              Except.ok (.mk (some Ty.i32) (.i32Const 7) (1, 2)))
    ∧ tc_expression noIntr 2 ({ return_type := some Ty.i32 } : TcState)
        (.mk none (.ret (some (.mk none (.i32Const 7) (1, 2)))) (0, 3))
      = some ({ return_type := some Ty.i32 },
              Except.ok (.mk none (.ret (some (.mk (some Ty.i32) (.i32Const 7) (1, 2)))) (0, 3))) := by
  refine ⟨rfl, ?_⟩
  exact ((c3_return_rules noIntr 1 ({ return_type := some Ty.i32 } : TcState) none (0, 3)).2
    (.mk none (.i32Const 7) (1, 2)) ({ return_type := some Ty.i32 } : TcState)
    (.mk (some Ty.i32) (.i32Const 7) (1, 2)) rfl).1 rfl

/-- C8 (confirmed): a `branch_if` whose condition checks to a non-i32 type
fails with a type mismatch; one whose condition is i32 but whose label is
not on the active-label stack fails with an unresolved-label diagnostic; and
when the condition is i32 and the label is on the stack it succeeds with
void type. -/
theorem c8_branch_if (intr : Intrinsics) (fuel : Nat) (st : TcState)
    (t0 : Option Ty) (sp : Span) (condition : Expression) (label : String)
    (st1 : TcState) (c' : Expression)
    (hc : tc_expression intr fuel st condition = some (st1, Except.ok c')) :
    (c'.type_ ≠ some Ty.i32 →
      tc_expression intr (fuel + 1) st (.mk t0 (.branchIf condition label) sp)
        = some (st1.emit (.typeMismatch (some Ty.i32) sp c'.type_ c'.span),
                Except.error ()))
    ∧ (c'.type_ = some Ty.i32 → label ∉ st1.block_stack →
      tc_expression intr (fuel + 1) st (.mk t0 (.branchIf condition label) sp)
        = some (st1.emit (.missingLabel sp), Except.error ()))
    ∧ (c'.type_ = some Ty.i32 → label ∈ st1.block_stack →
      tc_expression intr (fuel + 1) st (.mk t0 (.branchIf condition label) sp)
        = some (st1, Except.ok (.mk none (.branchIf c' label) sp))) := by
  refine ⟨?_, ?_, ?_⟩
  · intro hne
    simp only [tc_expression, mbind, hc]
    rw [if_pos hne]
    rfl
  · intro heq hnl
    simp only [tc_expression, mbind, hc]
    rw [if_neg (by simp [heq]), if_neg hnl]
    rfl
  · intro heq hl
    simp only [tc_expression, mbind, hc]
    rw [if_neg (by simp [heq]), if_pos hl]
    rfl

/-- C8 witness: the confirmed statement applied to a concrete conditional
branch to an enclosing label. -/
theorem c8_witness :
    tc_expression noIntr 1 ({ block_stack := ["top"] } : TcState)
        (.mk none (.i32Const 1) (1, 2))
      = some ({ block_stack := ["top"] },
              Except.ok (.mk (some Ty.i32) (.i32Const 1) (1, 2)))
    ∧ tc_expression noIntr 2 ({ block_stack := ["top"] } : TcState)
        (.mk none (.branchIf (.mk none (.i32Const 1) (1, 2)) "top") (0, 3))
      = some ({ block_stack := ["top"] },
              Except.ok (.mk none
                (.branchIf (.mk (some Ty.i32) (.i32Const 1) (1, 2)) "top") (0, 3))) := by
  refine ⟨rfl, ?_⟩
  exact (c8_branch_if noIntr 1 ({ block_stack := ["top"] } : TcState) none (0, 3)
    (.mk none (.i32Const 1) (1, 2)) "top" ({ block_stack := ["top"] } : TcState)
    (.mk (some Ty.i32) (.i32Const 1) (1, 2)) rfl).2.2 rfl (by decide)

/-- C9 (confirmed): a labeled block checks its body with the label pushed
onto the active-label stack (and pops it afterwards); a void body is
accepted and the labeled block itself has void type, while a body of any
non-void type fails with a type mismatch. -/
theorem c9_label_block (intr : Intrinsics) (fuel : Nat) (st : TcState)
    (t0 : Option Ty) (sp : Span) (label : String) (blk : Expression)
    (st2 : TcState) (b' : Expression)
    (hb : tc_expression intr fuel { st with block_stack := label :: st.block_stack } blk
      = some (st2, Except.ok b')) :
    (b'.type_ = none →
      tc_expression intr (fuel + 1) st (.mk t0 (.labelBlock label blk) sp)
        = some ({ st2 with block_stack := st2.block_stack.tail },
                Except.ok (.mk none (.labelBlock label b') sp)))
    ∧ (∀ t, b'.type_ = some t →
      tc_expression intr (fuel + 1) st (.mk t0 (.labelBlock label blk) sp)
        = some (({ st2 with block_stack := st2.block_stack.tail }).emit
                  (.typeMismatch none sp (some t) b'.span),
                Except.error ())) := by
  constructor
  · intro hnone
    simp only [tc_expression, mbind, hb, hnone]
    rfl
  · intro t ht
    simp only [tc_expression, mbind, hb, ht]
    rfl

/-- C9 witness: the confirmed statement applied to a concrete labeled block
whose body is a branch to its own label, which also exhibits that the label
is visible inside the body. -/
theorem c9_witness :
    tc_expression noIntr 2 ({ block_stack := ["l"] } : TcState)
        (.mk none (.branch "l") (1, 2))
      = some ({ block_stack := ["l"] }, Except.ok (.mk none (.branch "l") (1, 2)))
    ∧ tc_expression noIntr 3 (({} : TcState))
        (.mk none (.labelBlock "l" (.mk none (.branch "l") (1, 2))) (0, 3))
      = some ({}, Except.ok (.mk none (.labelBlock "l" (.mk none (.branch "l") (1, 2))) (0, 3))) := by
  refine ⟨rfl, ?_⟩
  have hb : tc_expression noIntr 2
      (({ ({} : TcState) with block_stack := "l" :: ({} : TcState).block_stack }) : TcState)
      (.mk none (.branch "l") (1, 2))
      = some ({ block_stack := ["l"] }, Except.ok (.mk none (.branch "l") (1, 2))) := rfl
  exact (c9_label_block noIntr 2 {} none (0, 3) "l" (.mk none (.branch "l") (1, 2))
    ({ block_stack := ["l"] } : TcState) (.mk none (.branch "l") (1, 2)) hb).1 rfl

def MemoryLocation.span : MemoryLocation → Span
  | .mk s _ _ _ => s

theorem tc_const_ok_shape (e e' : Expression) (h : tc_const e = Except.ok e') :
    e'.expr = e.expr ∧ e'.span = e.span := by
  obtain ⟨t0, e0, sp⟩ := e
  cases e0 <;> simp only [tc_const] at h <;>
    first
      | exact Except.noConfusion h
      | (injection h with h
         subst h
         exact ⟨rfl, rfl⟩)

theorem tc_const_ok_i32 (e e' : Expression) (h : tc_const e = Except.ok e')
    (ht : e'.type_ = some Ty.i32) : ∃ c, e.expr = Expr.i32Const c := by
  obtain ⟨t0, e0, sp⟩ := e
  cases e0 <;> simp only [tc_const] at h <;>
    first
      | exact Except.noConfusion h
      | (injection h with h
         subst h
         first
           | exact ⟨_, rfl⟩
           | simp [Expression.type_] at ht)

theorem tc_mem_location_ok (tce : TcState → Expression → M Expression)
    (st : TcState) (m : MemoryLocation) (st' : TcState) (m' : MemoryLocation)
    (h : tc_mem_location tce st m = some (st', Except.ok m')) :
    ∃ left' right', m' = .mk m.span m.size left' right' ∧
      tce st m.left = some (st', Except.ok left') ∧
      tc_const m.right = Except.ok right' ∧
      left'.type_ = some Ty.i32 ∧ right'.type_ = some Ty.i32 := by
  obtain ⟨mspan, size, left, right⟩ := m
  rw [tc_mem_location] at h
  rw [mbind_ok_iff] at h
  obtain ⟨st1, left', h1, h2⟩ := h
  match hc : tc_const right with
  | .error d =>
    simp only [hc] at h2
    exact absurd h2 (merr_ne_ok _ _ _ _)
  | .ok right' =>
    simp only [hc] at h2
    split at h2
    · exact absurd h2 (merr_ne_ok _ _ _ _)
    case isFalse hleft =>
      split at h2
      · exact absurd h2 (merr_ne_ok _ _ _ _)
      case isFalse hright =>
        rw [mok_ok_iff] at h2
        obtain ⟨hst, hm⟩ := h2
        subst hst
        subst hm
        exact ⟨left', right', rfl, h1, rfl, not_ne_iff.mp hleft, not_ne_iff.mp hright⟩

/-- C6 (confirmed): a `poke` type-checks only when the base address checks
to i32, the offset is a literal constant of type i32 (an i32 literal), and
the stored value checks to i32; the successful poke itself has void type,
and a value of any other type is rejected with a type mismatch regardless of
the access width. -/
theorem c6_poke_rules (intr : Intrinsics) (fuel : Nat) :
    (∀ st t0 sp m value st' e',
      tc_expression intr (fuel + 1) st (.mk t0 (.poke m value) sp)
          = some (st', Except.ok e') →
      ∃ m' v', e' = Expression.mk none (.poke m' v') sp ∧
        m'.left.type_ = some Ty.i32 ∧ m'.right.type_ = some Ty.i32 ∧
        (∃ c, m.right.expr = Expr.i32Const c) ∧ v'.type_ = some Ty.i32)
    ∧ (∀ st t0 sp m value st1 m' st2 v',
      tc_mem_location (tc_expression intr fuel) st m = some (st1, Except.ok m') →
      tc_expression intr fuel st1 value = some (st2, Except.ok v') →
      v'.type_ ≠ some Ty.i32 →
      tc_expression intr (fuel + 1) st (.mk t0 (.poke m value) sp)
        = some (st2.emit (.typeMismatch (some Ty.i32) sp v'.type_ v'.span),
                Except.error ())) := by
  constructor
  · intro st t0 sp m value st' e' h
    simp only [tc_expression] at h
    rw [mbind_ok_iff] at h
    obtain ⟨st1, m', h1, h2⟩ := h
    rw [mbind_ok_iff] at h2
    obtain ⟨st2, v', h3, h4⟩ := h2
    split at h4
    · exact absurd h4 (merr_ne_ok _ _ _ _)
    case isFalse hv =>
      rw [mok_ok_iff] at h4
      obtain ⟨left', right', hm', _, hconst, hlt, hrt⟩ :=
        tc_mem_location_ok (tc_expression intr fuel) st m st1 m' h1
      refine ⟨m', v', h4.2, ?_, ?_, ?_, not_ne_iff.mp hv⟩
      · rw [hm']
        exact hlt
      · rw [hm']
        exact hrt
      · exact tc_const_ok_i32 m.right right' hconst hrt
  · intro st t0 sp m value st1 m' st2 v' hmem hval hne
    simp only [tc_expression, mbind, hmem, hval]
    rw [if_pos hne]
    rfl

/-- C6 witness: the confirmed statement applied to a concrete word-width
poke of an i32 value. -/
theorem c6_witness :
    tc_expression noIntr 2 ({} : TcState)
        (.mk none (.poke
          (.mk (5, 9) MemSize.word (.mk none (.i32Const 16) (5, 6)) (.mk none (.i32Const 0) (7, 8)))
          (.mk none (.i32Const 42) (10, 12))) (0, 12))
      = some ({},
          Except.ok (.mk none (.poke
            (.mk (5, 9) MemSize.word (.mk (some Ty.i32) (.i32Const 16) (5, 6))
              (.mk (some Ty.i32) (.i32Const 0) (7, 8)))
            (.mk (some Ty.i32) (.i32Const 42) (10, 12))) (0, 12)))
    ∧ ∃ m' v',
        (Expression.mk none (.poke
          (.mk (5, 9) MemSize.word (.mk (some Ty.i32) (.i32Const 16) (5, 6))
            (.mk (some Ty.i32) (.i32Const 0) (7, 8)))
          (.mk (some Ty.i32) (.i32Const 42) (10, 12))) (0, 12))
          = Expression.mk none (.poke m' v') (0, 12) ∧
        m'.left.type_ = some Ty.i32 ∧ m'.right.type_ = some Ty.i32 ∧
        (∃ c, (Expression.mk none (.i32Const 0) (7, 8)).expr = Expr.i32Const c) ∧
        v'.type_ = some Ty.i32 := by
  refine ⟨rfl, ?_⟩
  have h := (c6_poke_rules noIntr 1).1 ({} : TcState) none (0, 12)
    (.mk (5, 9) MemSize.word (.mk none (.i32Const 16) (5, 6)) (.mk none (.i32Const 0) (7, 8)))
    (.mk none (.i32Const 42) (10, 12)) ({} : TcState)
    (.mk none (.poke
      (.mk (5, 9) MemSize.word (.mk (some Ty.i32) (.i32Const 16) (5, 6))
        (.mk (some Ty.i32) (.i32Const 0) (7, 8)))
      (.mk (some Ty.i32) (.i32Const 42) (10, 12))) (0, 12)) rfl
  exact h

theorem setLocalIndex_length (ls : List Local) (p : Nat) (idx : Option Nat) :
    (setLocalIndex ls p idx).length = ls.length := by
  induction ls generalizing p with
  | nil => simp [setLocalIndex]
  | cons l rest ih =>
    cases p with
    | zero => simp [setLocalIndex]
    | succ q => simp [setLocalIndex, ih]

theorem setLocalIndex_getD_self (ls : List Local) (p : Nat) (idx : Option Nat)
    (hp : p < ls.length) :
    (setLocalIndex ls p idx).getD p default
      = { ls.getD p default with index := idx } := by
  induction ls generalizing p with
  | nil => simp at hp
  | cons l rest ih =>
    cases p with
    | zero => simp [setLocalIndex]
    | succ q =>
      simp only [setLocalIndex, List.getD_cons_succ]
      exact ih q (Nat.succ_lt_succ_iff.mp hp)

theorem setLocalIndex_getD_ne (ls : List Local) (p : Nat) (idx : Option Nat)
    (j : Nat) (hj : j ≠ p) :
    (setLocalIndex ls p idx).getD j default = ls.getD j default := by
  induction ls generalizing p j with
  | nil => simp [setLocalIndex]
  | cons l rest ih =>
    cases p with
    | zero =>
      cases j with
      | zero => exact absurd rfl hj
      | succ j' => simp [setLocalIndex]
    | succ q =>
      cases j with
      | zero => simp [setLocalIndex]
      | succ j' =>
        simp only [setLocalIndex, List.getD_cons_succ]
        exact ih q j' (fun hh => hj (by rw [hh]))

theorem localMappingFrom_mem_of (ls : List Local) :
    ∀ (i k : Nat), k < ls.length → (ls.getD k default).index.isSome = true →
    ((ls.getD k default).type_, i + k) ∈ localMappingFrom i ls := by
  induction ls with
  | nil => intro i k hk; simp at hk
  | cons l rest ih =>
    intro i k hk hsome
    cases k with
    | zero =>
      have hsome' : l.index.isSome = true := hsome
      show ((l.type_ : Ty), i + 0) ∈ localMappingFrom i (l :: rest)
      simp [localMappingFrom, hsome']
    | succ k' =>
      have hmem := ih (i + 1) k' (Nat.succ_lt_succ_iff.mp hk) hsome
      have harith : i + 1 + k' = i + (k' + 1) := by omega
      rw [harith] at hmem
      show ((rest.getD k' default).type_, i + (k' + 1)) ∈ localMappingFrom i (l :: rest)
      by_cases hl : l.index.isSome
      · simp only [localMappingFrom, hl, if_true, List.mem_cons]
        right
        exact hmem
      · simp only [localMappingFrom, hl, if_false]
        exact hmem

theorem localMappingFrom_mem_inv (ls : List Local) :
    ∀ (i : Nat) (t : Ty) (j : Nat), (t, j) ∈ localMappingFrom i ls →
    i ≤ j ∧ j - i < ls.length ∧ (ls.getD (j - i) default).index.isSome = true ∧
      (ls.getD (j - i) default).type_ = t := by
  induction ls with
  | nil => intro i t j h; simp [localMappingFrom] at h
  | cons l rest ih =>
    intro i t j h
    by_cases hl : l.index.isSome
    · simp only [localMappingFrom, hl, if_true, List.mem_cons] at h
      rcases h with heq | hmem
      · injection heq with h1 h2
        subst h1
        subst h2
        refine ⟨Nat.le_refl _, ?_, ?_, ?_⟩
        · simp
        · simpa using hl
        · simp
      · obtain ⟨h1, h2, h3, h4⟩ := ih (i + 1) t j hmem
        have hsub : j - i = (j - (i + 1)) + 1 := by omega
        rw [hsub]
        exact ⟨by omega, by simpa using Nat.succ_lt_succ h2, h3, h4⟩
    · simp only [localMappingFrom, hl, if_false] at h
      obtain ⟨h1, h2, h3, h4⟩ := ih (i + 1) t j h
      have hsub : j - i = (j - (i + 1)) + 1 := by omega
      rw [hsub]
      exact ⟨by omega, by simpa using Nat.succ_lt_succ h2, h3, h4⟩

theorem localMappingFrom_snd_ge (ls : List Local) :
    ∀ (i : Nat), ∀ q ∈ localMappingFrom i ls, i ≤ q.2 := by
  induction ls with
  | nil => intro i q hq; simp [localMappingFrom] at hq
  | cons l rest ih =>
    intro i q hq
    by_cases hl : l.index.isSome
    · simp only [localMappingFrom, hl, if_true, List.mem_cons] at hq
      rcases hq with rfl | hmem
      · exact Nat.le_refl _
      · exact Nat.le_of_succ_le (ih (i + 1) q hmem)
    · simp only [localMappingFrom, hl, if_false] at hq
      exact Nat.le_of_succ_le (ih (i + 1) q hq)

theorem localMappingFrom_pairwise (ls : List Local) :
    ∀ (i : Nat), (localMappingFrom i ls).Pairwise (fun a b => a.2 < b.2) := by
  induction ls with
  | nil => intro i; simp [localMappingFrom]
  | cons l rest ih =>
    intro i
    by_cases hl : l.index.isSome
    · simp only [localMappingFrom, hl, if_true]
      refine List.Pairwise.cons ?_ (ih (i + 1))
      intro q hq
      exact Nat.lt_of_succ_le (localMappingFrom_snd_ge rest (i + 1) q hq)
    · simp only [localMappingFrom, hl, if_false]
      exact ih (i + 1)

theorem localMappingFrom_length (ls : List Local) :
    ∀ (i : Nat), (localMappingFrom i ls).length
      = (ls.filter (fun l => l.index.isSome)).length := by
  induction ls with
  | nil => intro i; simp [localMappingFrom]
  | cons l rest ih =>
    intro i
    by_cases hl : l.index.isSome
    · simp [localMappingFrom, hl, List.filter, ih (i + 1)]
    · simp [localMappingFrom, hl, List.filter, ih (i + 1)]

theorem applyMapping_length (start : Nat) (sorted : List (Ty × Nat)) :
    ∀ (acc : List Local) (id : Nat),
      (applyMapping start acc id sorted).length = acc.length := by
  induction sorted with
  | nil => intro acc id; rfl
  | cons q rest ih =>
    intro acc id
    rw [applyMapping, ih, setLocalIndex_length]

theorem applyMapping_getD_not_mem (start : Nat) (sorted : List (Ty × Nat)) :
    ∀ (acc : List Local) (id : Nat) (j : Nat), (∀ q ∈ sorted, q.2 ≠ j) →
      (applyMapping start acc id sorted).getD j default = acc.getD j default := by
  induction sorted with
  | nil => intro acc id j _; rfl
  | cons q rest ih =>
    intro acc id j hj
    rw [applyMapping,
      ih _ (id + 1) j (fun p hp => hj p (List.mem_cons_of_mem q hp)),
      setLocalIndex_getD_ne _ _ _ _ (Ne.symm (hj q (List.mem_cons_self q rest)))]

theorem applyMapping_getD_rank (start : Nat) (sorted : List (Ty × Nat)) :
    ∀ (acc : List Local) (id : Nat) (r : Nat) (t : Ty) (j : Nat),
      sorted.get? r = some (t, j) → (sorted.map Prod.snd).Nodup → j < acc.length →
      (applyMapping start acc id sorted).getD j default
        = { acc.getD j default with index := some (start + id + r) } := by
  induction sorted with
  | nil => intro acc id r t j hr; simp at hr
  | cons q rest ih =>
    intro acc id r t j hr hnd hj
    have hnd2 : (q.2 :: rest.map Prod.snd).Nodup := by simpa using hnd
    have hhead : q.2 ∉ rest.map Prod.snd := (List.nodup_cons.mp hnd2).1
    have htail : (rest.map Prod.snd).Nodup := (List.nodup_cons.mp hnd2).2
    cases r with
    | zero =>
      have hq : q = (t, j) := by simpa using hr
      subst hq
      rw [applyMapping]
      have hnotmem : ∀ p ∈ rest, p.2 ≠ j := by
        intro p hp hpj
        exact hhead (List.mem_map.mpr ⟨p, hp, hpj⟩)
      rw [applyMapping_getD_not_mem _ _ _ _ _ hnotmem]
      rw [setLocalIndex_getD_self _ _ _ hj]
      rw [Nat.add_zero]
    | succ r' =>
      have hmem : (t, j) ∈ rest := List.get?_mem hr
      have hq : q.2 ≠ j := by
        intro hpj
        exact hhead (hpj ▸ List.mem_map.mpr ⟨(t, j), hmem, rfl⟩)
      rw [applyMapping]
      rw [ih _ (id + 1) r' t j hr htail (by rw [setLocalIndex_length]; exact hj)]
      rw [setLocalIndex_getD_ne _ _ _ _ (Ne.symm hq)]
      have harith : start + (id + 1) + r' = start + id + (r' + 1) := by omega
      rw [harith]

theorem Ty.toNat_inj {a b : Ty} (h : a.toNat = b.toNat) : a = b := by
  cases a <;> cases b <;> first | rfl | simp [Ty.toNat] at h

theorem assign_local_slots_params (ls : Locals) :
    (assign_local_slots ls).params = ls.params :=
  rfl

theorem sortedMapping_nodup (ls : Locals) :
    ((List.insertionSort tyleRel (localMappingFrom 0 ls.locals)).map Prod.snd).Nodup := by
  have hp : (localMappingFrom 0 ls.locals).Pairwise (fun a b => a.2 < b.2) :=
    localMappingFrom_pairwise _ 0
  have hmap : ((localMappingFrom 0 ls.locals).map Prod.snd).Pairwise (· < ·) :=
    List.pairwise_map.mpr hp
  have hnodup : ((localMappingFrom 0 ls.locals).map Prod.snd).Nodup :=
    hmap.imp Nat.ne_of_lt
  exact (((List.perm_insertionSort tyleRel _).map Prod.snd).nodup_iff).mpr hnodup

theorem sortedMapping_length (ls : Locals) :
    (List.insertionSort tyleRel (localMappingFrom 0 ls.locals)).length
      = (ls.locals.filter (fun l => l.index.isSome)).length := by
  rw [(List.perm_insertionSort tyleRel _).length_eq]
  exact localMappingFrom_length _ 0

theorem sorted_not_mem_of_none (ls : Locals) (j : Nat)
    (hnone : (ls.locals.getD j default).index = none) :
    ∀ q ∈ List.insertionSort tyleRel (localMappingFrom 0 ls.locals), q.2 ≠ j := by
  intro q hq hqj
  have hm : q ∈ localMappingFrom 0 ls.locals :=
    (List.perm_insertionSort tyleRel _).subset hq
  obtain ⟨_, _, hsome, _⟩ := localMappingFrom_mem_inv ls.locals 0 q.1 q.2 (by
    simpa using hm)
  rw [Nat.sub_zero, hqj, hnone] at hsome
  simp at hsome

/-- A local that holds no provisional slot (an inline let) is untouched by
the slot-assignment pass: its index stays `none`. -/
theorem assign_preserves_none (ls : Locals) (j : Nat)
    (hnone : (ls.locals.getD j default).index = none) :
    ((assign_local_slots ls).locals.getD j default).index = none := by
  have key : (assign_local_slots ls).locals
      = applyMapping ls.params.length ls.locals 0
          (List.insertionSort tyleRel (localMappingFrom 0 ls.locals)) := rfl
  rw [key, applyMapping_getD_not_mem _ _ _ _ _ (sorted_not_mem_of_none ls j hnone)]
  exact hnone

theorem rank_of_stored (ls : Locals) (j : Nat) (hj : j < ls.locals.length)
    (hsome : (ls.locals.getD j default).index.isSome = true) :
    ∃ r, r < (List.insertionSort tyleRel (localMappingFrom 0 ls.locals)).length ∧
      (List.insertionSort tyleRel (localMappingFrom 0 ls.locals)).get? r
        = some ((ls.locals.getD j default).type_, j) := by
  have hm : ((ls.locals.getD j default).type_, j) ∈ localMappingFrom 0 ls.locals := by
    have := localMappingFrom_mem_of ls.locals 0 j hj hsome
    simpa using this
  have hs : ((ls.locals.getD j default).type_, j)
      ∈ List.insertionSort tyleRel (localMappingFrom 0 ls.locals) :=
    (List.perm_insertionSort tyleRel _).mem_iff.mpr hm
  obtain ⟨r, hr⟩ := List.get?_of_mem hs
  obtain ⟨hlt, _⟩ := List.get?_eq_some.mp hr
  exact ⟨r, hlt, hr⟩

/-- Full characterisation of the output of the slot-assignment pass at a
stored local: its slot is the parameter count plus its rank in the sorted
mapping, and all other fields are unchanged. -/
theorem assign_out_at (ls : Locals) (j : Nat) (hj : j < ls.locals.length) (r : Nat)
    (hr : (List.insertionSort tyleRel (localMappingFrom 0 ls.locals)).get? r
      = some ((ls.locals.getD j default).type_, j)) :
    (assign_local_slots ls).locals.getD j default
      = { ls.locals.getD j default with index := some (ls.params.length + r) } := by
  have key : (assign_local_slots ls).locals
      = applyMapping ls.params.length ls.locals 0
          (List.insertionSort tyleRel (localMappingFrom 0 ls.locals)) := rfl
  rw [key, applyMapping_getD_rank _ _ _ 0 r _ j hr (sortedMapping_nodup ls) hj]
  have harith : ls.params.length + 0 + r = ls.params.length + r := by omega
  rw [harith]

/-- Analysis of any slot produced by the pass: it belongs to a stored local
and records the rank of that local in the sorted mapping. -/
theorem assign_index_analysis (ls : Locals) (j : Nat) (hj : j < ls.locals.length)
    (i : Nat)
    (hi : ((assign_local_slots ls).locals.getD j default).index = some i) :
    ∃ r, r < (List.insertionSort tyleRel (localMappingFrom 0 ls.locals)).length ∧
      i = ls.params.length + r ∧
      (List.insertionSort tyleRel (localMappingFrom 0 ls.locals)).get? r
        = some (((assign_local_slots ls).locals.getD j default).type_, j) := by
  by_cases hsome : (ls.locals.getD j default).index.isSome
  · obtain ⟨r, hrlt, hr⟩ := rank_of_stored ls j hj hsome
    have hout := assign_out_at ls j hj r hr
    rw [hout] at hi
    simp only [Option.some.injEq] at hi
    refine ⟨r, hrlt, hi.symm, ?_⟩
    rw [hout]
    exact hr
  · have hnone : (ls.locals.getD j default).index = none :=
      Option.not_isSome_iff_eq_none.mp (by simpa using hsome)
    rw [assign_preserves_none ls j hnone] at hi
    simp at hi

/-- C1 core: after the pass the stored slots are exactly the contiguous
range starting at the parameter count, and slots respect the type order. -/
theorem assign_local_slots_packed (ls : Locals) :
    (∀ j, j < ls.locals.length → ∀ i,
        ((assign_local_slots ls).locals.getD j default).index = some i →
        ls.params.length ≤ i ∧
          i < ls.params.length + (ls.locals.filter (fun l => l.index.isSome)).length) ∧
    (∀ i, ls.params.length ≤ i →
        i < ls.params.length + (ls.locals.filter (fun l => l.index.isSome)).length →
        ∃ j, j < ls.locals.length ∧
          ((assign_local_slots ls).locals.getD j default).index = some i) ∧
    (∀ j1 j2 i1 i2, j1 < ls.locals.length → j2 < ls.locals.length →
        ((assign_local_slots ls).locals.getD j1 default).index = some i1 →
        ((assign_local_slots ls).locals.getD j2 default).index = some i2 →
        ((assign_local_slots ls).locals.getD j1 default).type_.toNat
          < ((assign_local_slots ls).locals.getD j2 default).type_.toNat →
        i1 < i2) := by
  refine ⟨?_, ?_, ?_⟩
  · intro j hj i hi
    obtain ⟨r, hrlt, hieq, _⟩ := assign_index_analysis ls j hj i hi
    rw [sortedMapping_length] at hrlt
    omega
  · intro i h1 h2
    have hrlt : i - ls.params.length
        < (List.insertionSort tyleRel (localMappingFrom 0 ls.locals)).length := by
      rw [sortedMapping_length]
      omega
    have hq := List.get?_eq_get hrlt
    have hqmem : (List.insertionSort tyleRel (localMappingFrom 0 ls.locals)).get
        ⟨i - ls.params.length, hrlt⟩ ∈ localMappingFrom 0 ls.locals :=
      (List.perm_insertionSort tyleRel _).subset
        (List.get_mem _ _ _)
    obtain ⟨_, hjlt, hsome, htype⟩ := localMappingFrom_mem_inv ls.locals 0
      ((List.insertionSort tyleRel (localMappingFrom 0 ls.locals)).get
        ⟨i - ls.params.length, hrlt⟩).1
      ((List.insertionSort tyleRel (localMappingFrom 0 ls.locals)).get
        ⟨i - ls.params.length, hrlt⟩).2
      (by simpa using hqmem)
    rw [Nat.sub_zero] at hjlt hsome htype
    have hr : (List.insertionSort tyleRel (localMappingFrom 0 ls.locals)).get?
        (i - ls.params.length)
        = some ((ls.locals.getD
            ((List.insertionSort tyleRel (localMappingFrom 0 ls.locals)).get
              ⟨i - ls.params.length, hrlt⟩).2 default).type_,
          ((List.insertionSort tyleRel (localMappingFrom 0 ls.locals)).get
            ⟨i - ls.params.length, hrlt⟩).2) := by
      rw [hq, htype]
    have hout := assign_out_at ls _ hjlt (i - ls.params.length) hr
    refine ⟨_, hjlt, ?_⟩
    rw [hout]
    simp only [Option.some.injEq]
    omega
  · intro j1 j2 i1 i2 hj1 hj2 hi1 hi2 hlt
    obtain ⟨r1, hr1lt, hieq1, hr1⟩ := assign_index_analysis ls j1 hj1 i1 hi1
    obtain ⟨r2, hr2lt, hieq2, hr2⟩ := assign_index_analysis ls j2 hj2 i2 hi2
    have ht1 : (List.insertionSort tyleRel (localMappingFrom 0 ls.locals)).get ⟨r1, hr1lt⟩
        = (((assign_local_slots ls).locals.getD j1 default).type_, j1) := by
      have hg := List.get?_eq_get hr1lt
      rw [hg] at hr1
      exact (Option.some.injEq _ _).mp hr1
    have ht2 : (List.insertionSort tyleRel (localMappingFrom 0 ls.locals)).get ⟨r2, hr2lt⟩
        = (((assign_local_slots ls).locals.getD j2 default).type_, j2) := by
      have hg := List.get?_eq_get hr2lt
      rw [hg] at hr2
      exact (Option.some.injEq _ _).mp hr2
    have hsorted : List.Sorted tyleRel
        (List.insertionSort tyleRel (localMappingFrom 0 ls.locals)) :=
      List.sorted_insertionSort tyleRel _
    have hne : r1 ≠ r2 := by
      intro hreq
      have hgeq : (List.insertionSort tyleRel (localMappingFrom 0 ls.locals)).get ⟨r1, hr1lt⟩
          = (List.insertionSort tyleRel (localMappingFrom 0 ls.locals)).get ⟨r2, hr2lt⟩ := by
        congr 1
        exact Fin.ext hreq
      rw [ht1, ht2] at hgeq
      have htt := congrArg Prod.fst hgeq
      simp only at htt
      rw [htt] at hlt
      exact Nat.lt_irrefl _ hlt
    have hr1r2 : r1 < r2 := by
      by_contra hcon
      have hlt21 : r2 < r1 := by omega
      have hrel := List.Sorted.rel_get_of_lt hsorted
        (show (⟨r2, hr2lt⟩ : Fin _) < ⟨r1, hr1lt⟩ from Fin.mk_lt_mk.mpr hlt21)
      rw [ht1, ht2] at hrel
      simp only [tyleRel] at hrel
      omega
    omega

theorem add_local_get_self (ls : Locals) (sp2 : Span) (name : String) (t : Ty)
    (store : Bool) :
    ((ls.add_local sp2 name t store).1.get (ls.add_local sp2 name t store).2)
      = ⟨sp2, name, t,
          if store then some (ls.params.length + ls.locals.length) else none⟩ := by
  simp only [Locals.add_local, Locals.get]
  rw [if_neg (by omega)]
  have harith : ls.params.length + ls.locals.length - ls.params.length
      = ls.locals.length := by omega
  rw [harith]
  rw [List.getD_append_right _ _ _ _ (Nat.le_refl _)]
  simp

/-- C5 (confirmed): an inline `let` never receives a slot index — the local
it declares (fresh or reused) carries `index = none`, and the
slot-assignment pass leaves a slotless local slotless — and any assignment
or local-tee whose target resolves to a slotless local fails with an
immutable-assignment diagnostic. -/
theorem c5_inline_locals (intr : Intrinsics) :
    (∀ fuel st t0 sp name t lid st' e',
      tc_expression intr (fuel + 1) st
          (.mk t0 (.letE name (some t) none LetType.inline lid) sp)
        = some (st', Except.ok e') →
      ∃ id, e' = Expression.mk none (.letE name (some t) none LetType.inline (some id)) sp ∧
        (st'.locals.get id).index = none)
    ∧ (∀ ls j, (ls.locals.getD j default).index = none →
        ((assign_local_slots ls).locals.getD j default).index = none)
    ∧ (∀ fuel st t0 sp name value lid st1 v' id,
        tc_expression intr fuel st value = some (st1, Except.ok v') →
        lvGet st1.local_vars name = some id →
        (st1.locals.get id).index = none →
        tc_expression intr (fuel + 1) st (.mk t0 (.assign name value lid) sp)
          = some (st1.emit (.immutableAssign sp), Except.error ()))
    ∧ (∀ fuel st t0 sp name value lid st1 v' id,
        tc_expression intr fuel st value = some (st1, Except.ok v') →
        lvGet st1.local_vars name = some id →
        (st1.locals.get id).index = none →
        tc_expression intr (fuel + 1) st (.mk t0 (.localTee name value lid) sp)
          = some (st1.emit (.immutableAssign sp), Except.error ())) := by
  refine ⟨?_, ?_, ?_, ?_⟩
  · intro fuel st t0 sp name t lid st' e' h
    simp only [tc_expression] at h
    split at h
    case h_1 id heq =>
      rw [mok_ok_iff] at h
      obtain ⟨hst, he⟩ := h
      refine ⟨id, he, ?_⟩
      subst hst
      match hg : lvGetInCurrent st.local_vars name with
      | none =>
        rw [hg] at heq
        simp [Option.filter] at heq
      | some id0 =>
        rw [hg] at heq
        simp only [Option.filter] at heq
        split at heq
        case isTrue hpred =>
          obtain rfl : id0 = id := by simpa using heq
          have hfalse : decide ((LetType.inline : LetType) ≠ LetType.inline) = false := by
            decide
          rw [hfalse] at hpred
          simp only [Bool.and_eq_true, beq_iff_eq] at hpred
          have hidx : (st.locals.get id0).index.isSome = false := hpred.2.symm
          have hnone : (st.locals.get id0).index = none := by
            cases hcase : (st.locals.get id0).index with
            | none => rfl
            | some v =>
              rw [hcase] at hidx
              simp at hidx
          exact hnone
        case isFalse hpred => simp at heq
    case h_2 heq =>
      rw [mok_ok_iff] at h
      obtain ⟨hst, he⟩ := h
      refine ⟨(st.locals.add_local sp name t
        (decide (LetType.inline ≠ LetType.inline))).2, he, ?_⟩
      subst hst
      have hget := add_local_get_self st.locals sp name t
        (decide (LetType.inline ≠ LetType.inline))
      simp only [hget]
      simp
  · intro ls j hnone
    exact assign_preserves_none ls j hnone
  · intro fuel st t0 sp name value lid st1 v' id hval hget hidx
    simp only [tc_expression, mbind, hval, hget]
    simp [hidx]
    rfl
  · intro fuel st t0 sp name value lid st1 v' id hval hget hidx
    simp only [tc_expression, mbind, hval, hget]
    simp [hidx]
    rfl

/-- C5 witness: the confirmed statement applied to a concrete inline let
whose reuse of the name is then assigned to. -/
theorem c5_witness :
    (∃ id, (Expression.mk none
        (.letE "x" (some Ty.i32) none LetType.inline (some 0)) (0, 1))
        = Expression.mk none (.letE "x" (some Ty.i32) none LetType.inline (some id)) (0, 1) ∧
      ((({ local_vars := [[("x", 0)]]
           locals := { params := [], locals := [⟨(0, 1), "x", Ty.i32, none⟩] } } : TcState).locals.get id).index
        = none))
    ∧ tc_expression noIntr 2
        ({ local_vars := [[("x", 0)]]
           locals := { params := [], locals := [⟨(0, 1), "x", Ty.i32, none⟩] } } : TcState)
        (.mk none (.assign "x" (.mk none (.i32Const 3) (4, 5)) none) (2, 6))
      = some (({ local_vars := [[("x", 0)]]
                 locals := { params := [], locals := [⟨(0, 1), "x", Ty.i32, none⟩] } } : TcState).emit
                (.immutableAssign (2, 6)),
              Except.error ()) := by
  constructor
  · have h := (c5_inline_locals noIntr).1 0
      ({ local_vars := [[]] } : TcState) none (0, 1) "x" Ty.i32 none
      ({ local_vars := [[("x", 0)]]
         locals := { params := [], locals := [⟨(0, 1), "x", Ty.i32, none⟩] } } : TcState)
      (.mk none (.letE "x" (some Ty.i32) none LetType.inline (some 0)) (0, 1)) rfl
    exact h
  · exact (c5_inline_locals noIntr).2.2.1 1
      ({ local_vars := [[("x", 0)]]
         locals := { params := [], locals := [⟨(0, 1), "x", Ty.i32, none⟩] } } : TcState)
      none (2, 6) "x" (.mk none (.i32Const 3) (4, 5)) none
      ({ local_vars := [[("x", 0)]]
         locals := { params := [], locals := [⟨(0, 1), "x", Ty.i32, none⟩] } } : TcState)
      (.mk (some Ty.i32) (.i32Const 3) (4, 5)) 0 rfl rfl rfl

theorem alLookup_cons_of_isSome {α : Type} (p : String × α) (m : List (String × α))
    (k : String) (h : (alLookup m k).isSome = true) :
    (alLookup (p :: m) k).isSome = true := by
  simp only [alLookup, List.find?]
  cases hd : decide (p.1 = k) with
  | true => simp
  | false => simpa [alLookup] using h

theorem alLookup_cons_self {α : Type} (v : α) (m : List (String × α)) (k : String) :
    (alLookup ((k, v) :: m) k).isSome = true := by
  simp [alLookup, List.find?]

theorem registerSignatures_mono (fs : List Function) :
    ∀ st res nm, (alLookup st.functions nm).isSome = true →
      (alLookup (registerSignatures st res fs).1.functions nm).isSome = true := by
  induction fs with
  | nil => intro st res nm h; exact h
  | cons f rest ih =>
    intro st res nm h
    rw [registerSignatures]
    cases hl : alLookup st.functions f.name with
    | some prev =>
      simp only [hl]
      exact ih _ _ nm h
    | none =>
      simp only [hl]
      exact ih _ _ nm (alLookup_cons_of_isSome _ _ _ h)

theorem registerSignatures_contains (fs : List Function) :
    ∀ st res f, f ∈ fs →
      (alLookup (registerSignatures st res fs).1.functions f.name).isSome = true := by
  induction fs with
  | nil => intro st res f h; simp at h
  | cons g rest ih =>
    intro st res f hf
    rw [registerSignatures]
    rcases List.mem_cons.mp hf with rfl | hmem
    · cases hl : alLookup st.functions f.name with
      | some prev =>
        simp only [hl]
        apply registerSignatures_mono rest
        show (alLookup st.functions f.name).isSome = true
        rw [hl]
        rfl
      | none =>
        simp only [hl]
        exact registerSignatures_mono rest _ _ f.name (alLookup_cons_self _ _ _)
    · cases hl : alLookup st.functions g.name with
      | some prev =>
        simp only [hl]
        exact ih _ _ f hmem
      | none =>
        simp only [hl]
        exact ih _ _ f hmem

/-- C7 (confirmed): all user function signatures are registered before any
body is checked — after the signature pre-pass every function of the script
is present in the function table, body checking never changes that table,
and a call whose name is in the table is resolved against the recorded
signature (matching arguments succeed, mismatched arguments produce a
no-matching-overload diagnostic), never an unknown-function error. -/
theorem c7_forward_calls (intr : Intrinsics) :
    (∀ st res fs (f : Function), f ∈ fs →
      (alLookup (registerSignatures st res fs).1.functions f.name).isSome = true)
    ∧ (∀ fuel st e st' e', tc_expression intr fuel st e = some (st', Except.ok e') →
        st'.functions = st.functions)
    ∧ (∀ fuel st t0 sp name ps fnc st1 ps',
        tcCallParams (tc_expression intr fuel) st ps = some (st1, Except.ok ps') →
        alLookup st1.functions name = some fnc →
        (ps'.map (fun p => p.type_.getD Ty.i32) = fnc.params →
          tc_expression intr (fuel + 1) st (.mk t0 (.funcCall name ps) sp)
            = some (st1, Except.ok (.mk fnc.type_ (.funcCall name ps') sp)))
        ∧ (ps'.map (fun p => p.type_.getD Ty.i32) ≠ fnc.params →
          tc_expression intr (fuel + 1) st (.mk t0 (.funcCall name ps) sp)
            = some (st1.emit (.noMatchingFunction sp [(fnc.params, fnc.type_)]),
                    Except.error ()))) := by
  refine ⟨?_, ?_, ?_⟩
  · intro st res fs f hf
    exact registerSignatures_contains fs st res f hf
  · intro fuel st e st' e' h
    exact (tc_expression_inv intr fuel st e st' e' h).1
  · intro fuel st t0 sp name ps fnc st1 ps' hps hlook
    constructor
    · intro heq
      simp only [tc_expression, mbind, hps, hlook]
      have hfind : List.find?
          (fun q => decide (q.1 = ps'.map (fun p => p.type_.getD Ty.i32)))
          [(fnc.params, fnc.type_)] = some (fnc.params, fnc.type_) := by
        simp [List.find?, heq]
      rw [hfind]
      rfl
    · intro hne
      simp only [tc_expression, mbind, hps, hlook]
      have hne' : fnc.params ≠ ps'.map (fun p => p.type_.getD Ty.i32) :=
        fun hh => hne hh.symm
      have hfind : List.find?
          (fun q => decide (q.1 = ps'.map (fun p => p.type_.getD Ty.i32)))
          [(fnc.params, fnc.type_)] = none := by
        simp [List.find?, hne']
      rw [hfind]
      rfl

def fwdG : Function :=
  { span := (20, 30), export_ := false, start := false, name := "g", params := [],
    type_ := some Ty.i32,
    body := .mk none (.block [] (some (.mk none (.i32Const 3) (25, 26)))) (21, 29) }

def fwdF : Function :=
  { span := (0, 19), export_ := false, start := false, name := "f", params := [],
    type_ := some Ty.i32,
    body := .mk none (.block [] (some (.mk none (.funcCall "g" []) (5, 9)))) (1, 18) }

def fwdScript : Script :=
  { functions := [fwdF, fwdG] }

/-- C7 witness: the containment conjunct applied to a concrete script whose
first function calls the second before its declaration; the script as a
whole also type-checks with no diagnostics. -/
theorem c7_witness :
    (alLookup (registerSignatures ({} : TcState) (Except.ok ())
        [fwdF, fwdG]).1.functions fwdG.name).isSome = true
    ∧ (tc_script noIntr 9 fwdScript).map (fun q => (q.1.diags, q.2.2))
        = some ([], Except.ok ()) := by
  refine ⟨?_, rfl⟩
  exact (c7_forward_calls noIntr).1 {} (Except.ok ()) [fwdF, fwdG] fwdG (by simp)

theorem filter_length_eq_of_pointwise (l1 : List Local) :
    ∀ (l2 : List Local), l1.length = l2.length →
      (∀ j, j < l1.length →
        (l1.getD j default).index.isSome = (l2.getD j default).index.isSome) →
      (l1.filter (fun l => l.index.isSome)).length
        = (l2.filter (fun l => l.index.isSome)).length := by
  induction l1 with
  | nil =>
    intro l2 hlen _
    cases l2 with
    | nil => rfl
    | cons b bs => simp at hlen
  | cons a as ih =>
    intro l2 hlen h
    cases l2 with
    | nil => simp at hlen
    | cons b bs =>
      have h0 : a.index.isSome = b.index.isSome := h 0 (by simp)
      have htail : ∀ j, j < as.length →
          (as.getD j default).index.isSome = (bs.getD j default).index.isSome := by
        intro j hj
        exact h (j + 1) (by simpa using Nat.succ_lt_succ hj)
      have hih := ih bs (by simpa using hlen) htail
      simp only [List.filter]
      cases hcase : a.index.isSome with
      | true =>
        rw [← h0, hcase]
        simpa using hih
      | false =>
        rw [← h0, hcase]
        exact hih

theorem assign_locals_length (ls : Locals) :
    (assign_local_slots ls).locals.length = ls.locals.length := by
  have key : (assign_local_slots ls).locals
      = applyMapping ls.params.length ls.locals 0
          (List.insertionSort tyleRel (localMappingFrom 0 ls.locals)) := rfl
  rw [key]
  exact applyMapping_length _ _ _ _

theorem assign_isSome_pointwise (ls : Locals) (j : Nat) (hj : j < ls.locals.length) :
    ((assign_local_slots ls).locals.getD j default).index.isSome
      = (ls.locals.getD j default).index.isSome := by
  by_cases hsome : (ls.locals.getD j default).index.isSome
  · obtain ⟨r, hrlt, hr⟩ := rank_of_stored ls j hj hsome
    rw [assign_out_at ls j hj r hr]
    simp only [Option.isSome_some]
    exact hsome.symm
  · have hnone : (ls.locals.getD j default).index = none :=
      Option.not_isSome_iff_eq_none.mp (by simpa using hsome)
    rw [assign_preserves_none ls j hnone, hnone]

theorem assign_filter_length (ls : Locals) :
    ((assign_local_slots ls).locals.filter (fun l => l.index.isSome)).length
      = (ls.locals.filter (fun l => l.index.isSome)).length := by
  apply filter_length_eq_of_pointwise
  · exact assign_locals_length ls
  · intro j hj
    rw [assign_locals_length] at hj
    exact assign_isSome_pointwise ls j hj

theorem registerParams_diags_len (ps : List (String × Ty)) :
    ∀ st res fspan, st.diags.length ≤ (registerParams st res fspan ps).1.diags.length := by
  induction ps with
  | nil => intro st res fspan; exact Nat.le_refl _
  | cons p rest ih =>
    intro st res fspan
    obtain ⟨name, t⟩ := p
    rw [registerParams]
    cases hlv : lvGet st.local_vars name with
    | some id =>
      simp only [hlv]
      have h1 := ih (st.emit (.duplicateDefinition "Variable already defined" fspan
        (st.locals.get id).span)) (Except.error ()) fspan
      have h2 : (st.emit (.duplicateDefinition "Variable already defined" fspan
          (st.locals.get id).span)).diags.length = st.diags.length + 1 := by
        simp [TcState.emit]
      omega
    | none =>
      cases hgl : alLookup st.global_vars name with
      | some g =>
        simp only [hlv, hgl, Option.map]
        have h1 := ih (st.emit (.duplicateDefinition "Variable already defined" fspan
          g.span)) (Except.error ()) fspan
        have h2 : (st.emit (.duplicateDefinition "Variable already defined" fspan
            g.span)).diags.length = st.diags.length + 1 := by
          simp [TcState.emit]
        omega
      | none =>
        simp only [hlv, hgl, Option.map]
        exact ih
          { st with
              locals := (st.locals.add_param fspan name t).1
              local_vars := lvInsert st.local_vars name (st.locals.add_param fspan name t).2 }
          res fspan

theorem registerParams_params_of_diags (ps : List (String × Ty)) :
    ∀ st res fspan, (registerParams st res fspan ps).1.diags = st.diags →
      (registerParams st res fspan ps).1.locals.params.length
        = st.locals.params.length + ps.length := by
  induction ps with
  | nil =>
    intro st res fspan _
    simp [registerParams]
  | cons p rest ih =>
    intro st res fspan h
    obtain ⟨name, t⟩ := p
    rw [registerParams] at h ⊢
    cases hlv : lvGet st.local_vars name with
    | some id =>
      simp only [hlv] at h ⊢
      have h1 := registerParams_diags_len rest
        (st.emit (.duplicateDefinition "Variable already defined" fspan
          (st.locals.get id).span)) (Except.error ()) fspan
      have h2 : (st.emit (.duplicateDefinition "Variable already defined" fspan
          (st.locals.get id).span)).diags.length = st.diags.length + 1 := by
        simp [TcState.emit]
      have h3 := congrArg List.length h
      omega
    | none =>
      cases hgl : alLookup st.global_vars name with
      | some g =>
        simp only [hlv, hgl, Option.map] at h ⊢
        have h1 := registerParams_diags_len rest
          (st.emit (.duplicateDefinition "Variable already defined" fspan g.span))
          (Except.error ()) fspan
        have h2 : (st.emit (.duplicateDefinition "Variable already defined" fspan
            g.span)).diags.length = st.diags.length + 1 := by
          simp [TcState.emit]
        have h3 := congrArg List.length h
        omega
      | none =>
        simp only [hlv, hgl, Option.map] at h ⊢
        have hih := ih
          { st with
              locals := (st.locals.add_param fspan name t).1
              local_vars := lvInsert st.local_vars name (st.locals.add_param fspan name t).2 }
          res fspan h
        rw [hih]
        simp only [Locals.add_param, List.length_append, List.length_cons,
          List.length_nil]
        omega

/-- C1 (confirmed): for every function whose body check completes, the slot
indices of its stored (non-parameter) locals form exactly the contiguous
integer range starting at the arena parameter count; stored locals are
ordered by the fixed type order i32 < i64 < f32 < f64, so same-typed stored
locals occupy contiguous index blocks; and when the function checked without
any diagnostic the arena parameter count equals the function's declared
parameter count. -/
theorem c1_slot_packing (intr : Intrinsics) (fuel : Nat) (st : TcState)
    (res : Except Unit Unit) (f : Function) (st' : TcState)
    (res' : Except Unit Unit) (f' : Function)
    (h : tc_function intr fuel st res f = some (st', res', f', false)) :
    (∀ j, j < f'.locals.locals.length → ∀ i,
        (f'.locals.locals.getD j default).index = some i →
        f'.locals.params.length ≤ i ∧
          i < f'.locals.params.length
            + (f'.locals.locals.filter (fun l => l.index.isSome)).length) ∧
    (∀ i, f'.locals.params.length ≤ i →
        i < f'.locals.params.length
          + (f'.locals.locals.filter (fun l => l.index.isSome)).length →
        ∃ j, j < f'.locals.locals.length ∧
          (f'.locals.locals.getD j default).index = some i) ∧
    (∀ j1 j2 i1 i2, j1 < f'.locals.locals.length → j2 < f'.locals.locals.length →
        (f'.locals.locals.getD j1 default).index = some i1 →
        (f'.locals.locals.getD j2 default).index = some i2 →
        (f'.locals.locals.getD j1 default).type_.toNat
          < (f'.locals.locals.getD j2 default).type_.toNat →
        i1 < i2) ∧
    (∀ j1 j2 j3 i1 i2 i3,
        j1 < f'.locals.locals.length → j2 < f'.locals.locals.length →
        j3 < f'.locals.locals.length →
        (f'.locals.locals.getD j1 default).index = some i1 →
        (f'.locals.locals.getD j2 default).index = some i2 →
        (f'.locals.locals.getD j3 default).index = some i3 →
        i1 < i2 → i2 < i3 →
        (f'.locals.locals.getD j1 default).type_
          = (f'.locals.locals.getD j3 default).type_ →
        (f'.locals.locals.getD j2 default).type_
          = (f'.locals.locals.getD j1 default).type_) ∧
    (st'.diags = st.diags → f'.locals.params.length = f.params.length) := by
  simp only [tc_function] at h
  split at h
  · exact absurd h (by simp)
  · simp at h
  · rename_i stb body' heq
    obtain ⟨-, -, -, -, -, -, hdiags, hparams⟩ :=
      tc_expression_inv intr fuel _ f.body stb body' heq
    split at h <;>
      simp only [Option.some.injEq, Prod.mk.injEq] at h <;>
      obtain ⟨h1, h2, h3, -⟩ := h <;>
      subst h3
    · have hfl : ({ f with
                    body := body'
                    locals := assign_local_slots stb.locals } : Function).locals
          = assign_local_slots stb.locals := rfl
      rw [hfl]
      obtain ⟨hp1, hp2, hp3⟩ := assign_local_slots_packed stb.locals
      have hlen := assign_locals_length stb.locals
      have hcnt := assign_filter_length stb.locals
      have hpar : (assign_local_slots stb.locals).params = stb.locals.params := rfl
      refine ⟨?_, ?_, ?_, ?_, ?_⟩
      · intro j hj i hi
        rw [hpar, hcnt]
        exact hp1 j (hlen ▸ hj) i hi
      · intro i hi1 hi2
        rw [hpar] at hi1 hi2
        rw [hcnt] at hi2
        obtain ⟨j, hj, hidx⟩ := hp2 i hi1 hi2
        exact ⟨j, hlen ▸ hj, hidx⟩
      · intro j1 j2 i1 i2 hj1 hj2 hi1 hi2 hlt
        exact hp3 j1 j2 i1 i2 (hlen ▸ hj1) (hlen ▸ hj2) hi1 hi2 hlt
      · intro j1 j2 j3 i1 i2 i3 hj1 hj2 hj3 hi1 hi2 hi3 h12 h23 h13
        rcases Nat.lt_trichotomy
            ((assign_local_slots stb.locals).locals.getD j2 default).type_.toNat
            ((assign_local_slots stb.locals).locals.getD j1 default).type_.toNat
          with hcase | hcase | hcase
        · exact absurd (hp3 j2 j1 i2 i1 (hlen ▸ hj2) (hlen ▸ hj1) hi2 hi1 hcase)
            (by omega)
        · exact Ty.toNat_inj hcase
        · rw [h13] at hcase
          exact absurd (hp3 j3 j2 i3 i2 (hlen ▸ hj3) (hlen ▸ hj2) hi3 hi2 hcase)
            (by omega)
      · intro hdg
        exfalso
        have e0 : st'.diags = stb.diags ++
            [Diag.typeMismatch f.type_ f.span body'.type_ body'.span] := by
          rw [← h1]
          rfl
        have e1 : stb.diags.length = (registerParams
            { st with local_vars := lvPushScope [], locals := {} } res f.span
            f.params).1.diags.length := by
          rw [hdiags]
        have e2 := registerParams_diags_len f.params
          { st with local_vars := lvPushScope [], locals := {} } res f.span
        have e3 : ({ st with local_vars := lvPushScope [], locals := {} } : TcState).diags.length
            = st.diags.length := rfl
        have e4 := congrArg List.length (e0 ▸ hdg)
        simp only [List.length_append, List.length_cons, List.length_nil] at e4
        omega
    · have hfl : ({ f with
                    body := body'
                    locals := assign_local_slots stb.locals } : Function).locals
          = assign_local_slots stb.locals := rfl
      rw [hfl]
      obtain ⟨hp1, hp2, hp3⟩ := assign_local_slots_packed stb.locals
      have hlen := assign_locals_length stb.locals
      have hcnt := assign_filter_length stb.locals
      have hpar : (assign_local_slots stb.locals).params = stb.locals.params := rfl
      refine ⟨?_, ?_, ?_, ?_, ?_⟩
      · intro j hj i hi
        rw [hpar, hcnt]
        exact hp1 j (hlen ▸ hj) i hi
      · intro i hi1 hi2
        rw [hpar] at hi1 hi2
        rw [hcnt] at hi2
        obtain ⟨j, hj, hidx⟩ := hp2 i hi1 hi2
        exact ⟨j, hlen ▸ hj, hidx⟩
      · intro j1 j2 i1 i2 hj1 hj2 hi1 hi2 hlt
        exact hp3 j1 j2 i1 i2 (hlen ▸ hj1) (hlen ▸ hj2) hi1 hi2 hlt
      · intro j1 j2 j3 i1 i2 i3 hj1 hj2 hj3 hi1 hi2 hi3 h12 h23 h13
        rcases Nat.lt_trichotomy
            ((assign_local_slots stb.locals).locals.getD j2 default).type_.toNat
            ((assign_local_slots stb.locals).locals.getD j1 default).type_.toNat
          with hcase | hcase | hcase
        · exact absurd (hp3 j2 j1 i2 i1 (hlen ▸ hj2) (hlen ▸ hj1) hi2 hi1 hcase)
            (by omega)
        · exact Ty.toNat_inj hcase
        · rw [h13] at hcase
          exact absurd (hp3 j3 j2 i3 i2 (hlen ▸ hj3) (hlen ▸ hj2) hi3 hi2 hcase)
            (by omega)
      · intro hdg
        have e0 : st'.diags = stb.diags := by
          rw [← h1]
        have e1 : stb.diags = (registerParams
            { st with local_vars := lvPushScope [], locals := {} } res f.span
            f.params).1.diags := by
          rw [hdiags]
        have hpr := registerParams_params_of_diags f.params
          { st with local_vars := lvPushScope [], locals := {} } res f.span
          (by rw [← e1, ← e0, hdg])
        have e5 : stb.locals.params = (registerParams
            { st with local_vars := lvPushScope [], locals := {} } res f.span
            f.params).1.locals.params := by
          rw [hparams]
        rw [hpar, e5, hpr]
        simp

def c1fn : Function :=
  { span := (0, 9), export_ := false, start := false, name := "f",
    params := [("a", Ty.i32)], type_ := none,
    body := .mk none (.block
      [.mk none (.letE "x" (some Ty.f32) none LetType.normal none) (1, 2),
       .mk none (.letE "y" (some Ty.i32) none LetType.normal none) (3, 4)] none) (0, 9) }

def c1fnOut : Function :=
  { span := (0, 9), export_ := false, start := false, name := "f",
    params := [("a", Ty.i32)], type_ := none,
    body := .mk none (.block
      [.mk none (.letE "x" (some Ty.f32) none LetType.normal (some 1)) (1, 2),
       .mk none (.letE "y" (some Ty.i32) none LetType.normal (some 2)) (3, 4)] none) (0, 9),
    locals := { params := [⟨(0, 9), "a", Ty.i32, some 0⟩],
                locals := [⟨(1, 2), "x", Ty.f32, some 2⟩, ⟨(3, 4), "y", Ty.i32, some 1⟩] } }

def c1stOut : TcState :=
  { local_vars := [[("a", 0)]] }

/-- C1 witness: the theorem applied to a concrete function with one i32
parameter and stored locals of types f32 and i32; the i32 local receives
slot 1 (right after the parameter) and the f32 local slot 2. -/
theorem c1_witness :
    tc_function noIntr 9 ({} : TcState) (Except.ok ()) c1fn
      = some (c1stOut, Except.ok (), c1fnOut, false)
    ∧ c1fnOut.locals.params.length = c1fn.params.length := by
  refine ⟨rfl, ?_⟩
  exact (c1_slot_packing noIntr 9 ({} : TcState) (Except.ok ()) c1fn c1stOut
    (Except.ok ()) c1fnOut rfl).2.2.2.2 rfl

theorem registerImports_res_mono (imports : List Import) :
    ∀ st, (registerImports st (Except.error ()) imports).2 = Except.error () := by
  induction imports with
  | nil => intro st; rfl
  | cons imp rest ih =>
    intro st
    rw [registerImports]
    cases imp.type_ with
    | memory m => exact ih st
    | var name t mu =>
      cases hl : alLookup st.global_vars name with
      | some prev => simp only [hl]; exact ih _
      | none => simp only [hl]; exact ih _
    | func name ps rt =>
      cases hl : alLookup st.functions name with
      | some prev => simp only [hl]; exact ih _
      | none => simp only [hl]; exact ih _

theorem registerGlobals_res_mono (gs : List GlobalVar) :
    ∀ st, (registerGlobals st (Except.error ()) gs).2.1 = Except.error () := by
  induction gs with
  | nil => intro st; rfl
  | cons v rest ih =>
    intro st
    rw [registerGlobals]
    cases hl : alLookup st.global_vars v.name with
    | some prev =>
      simp only [hl]
      exact ih _
    | none =>
      simp only [hl]
      cases hc : tc_const v.value with
      | error d => simp only [hc]
      | ok value' =>
        simp only [hc]
        by_cases hmm : v.type_ ≠ value'.type_
        · by_cases hsome : v.type_.isSome
          · simp only [if_pos hmm, if_pos hsome]
            exact ih _
          · simp only [if_pos hmm, if_neg hsome]
            exact ih _
        · simp only [if_neg hmm]
          exact ih _

theorem registerSignatures_res_mono (fs : List Function) :
    ∀ st, (registerSignatures st (Except.error ()) fs).2 = Except.error () := by
  induction fs with
  | nil => intro st; rfl
  | cons f rest ih =>
    intro st
    rw [registerSignatures]
    cases hl : alLookup st.functions f.name with
    | some prev => simp only [hl]; exact ih _
    | none => simp only [hl]; exact ih _

theorem registerParams_res_mono (ps : List (String × Ty)) :
    ∀ st fspan, (registerParams st (Except.error ()) fspan ps).2 = Except.error () := by
  induction ps with
  | nil => intro st fspan; rfl
  | cons p rest ih =>
    intro st fspan
    obtain ⟨name, t⟩ := p
    rw [registerParams]
    cases hlv : lvGet st.local_vars name with
    | some id => simp only [hlv]; exact ih _ _
    | none =>
      cases hgl : alLookup st.global_vars name with
      | some g => simp only [hlv, hgl, Option.map]; exact ih _ _
      | none => simp only [hlv, hgl, Option.map]; exact ih _ _

theorem tc_function_res_mono (intr : Intrinsics) (fuel : Nat) (st : TcState)
    (f : Function) (st' : TcState) (res' : Except Unit Unit) (f' : Function)
    (ab : Bool)
    (h : tc_function intr fuel st (Except.error ()) f = some (st', res', f', ab)) :
    res' = Except.error () := by
  simp only [tc_function] at h
  split at h
  · exact absurd h (by simp)
  · simp only [Option.some.injEq, Prod.mk.injEq] at h
    exact h.2.1.symm
  · split at h <;> simp only [Option.some.injEq, Prod.mk.injEq] at h
    · exact h.2.1.symm
    · rw [← h.2.1, registerParams_res_mono]

theorem checkBodies_res_mono (intr : Intrinsics) (fuel : Nat) (fs : List Function) :
    ∀ st st' res' fs' ab,
      checkBodies intr fuel st (Except.error ()) fs = some (st', res', fs', ab) →
      res' = Except.error () := by
  induction fs with
  | nil =>
    intro st st' res' fs' ab h
    simp only [checkBodies, Option.some.injEq, Prod.mk.injEq] at h
    exact h.2.1.symm
  | cons f rest ih =>
    intro st st' res' fs' ab h
    rw [checkBodies] at h
    cases htf : tc_function intr fuel st (Except.error ()) f with
    | none =>
      rw [htf] at h
      exact absurd h (by simp)
    | some q =>
      obtain ⟨stf, resf, ff, abf⟩ := q
      have hres := tc_function_res_mono intr fuel st f stf resf ff abf htf
      subst hres
      rw [htf] at h
      cases abf with
      | true =>
        simp only [Option.some.injEq, Prod.mk.injEq] at h
        exact h.2.1.symm
      | false =>
        simp only [] at h
        cases hcb : checkBodies intr fuel stf (Except.error ()) rest with
        | none =>
          rw [hcb] at h
          exact absurd h (by simp)
        | some q2 =>
          obtain ⟨st2, res2, rest2, ab2⟩ := q2
          have hres2 := ih stf st2 res2 rest2 ab2 hcb
          subst hres2
          rw [hcb] at h
          simp only [Option.some.injEq, Prod.mk.injEq] at h
          exact h.2.1.symm

theorem checkStart_res_mono (fs : List Function) :
    ∀ st prev, (checkStart st (Except.error ()) prev fs).2 = Except.error () := by
  induction fs with
  | nil => intro st prev; rfl
  | cons f rest ih =>
    intro st prev
    rw [checkStart]
    by_cases hs : f.start
    · rw [if_pos hs]
      cases prev with
      | some p => exact ih _ _
      | none =>
        by_cases hbad : f.params ≠ [] ∨ f.type_.isSome
        · rw [if_pos hbad]
          exact ih _ _
        · rw [if_neg hbad]
          exact ih _ _
    · rw [if_neg hs]
      exact ih _ _

theorem checkConstValues_res_mono (vs : List Expression) :
    ∀ st needed, (checkConstValues st (Except.error ()) needed vs).2.1 = Except.error () := by
  induction vs with
  | nil => intro st needed; rfl
  | cons v rest ih =>
    intro st needed
    rw [checkConstValues]
    cases hc : tc_const v with
    | error d => simp only [hc]
    | ok v' =>
      simp only [hc]
      by_cases hmm : v'.type_ ≠ some needed
      · simp only [if_pos hmm]
        exact ih _ _
      · simp only [if_neg hmm]
        exact ih _ _

theorem checkDataValues_res_mono (ds : List DataValues) :
    ∀ st, (checkDataValues st (Except.error ()) ds).2.1 = Except.error () := by
  induction ds with
  | nil => intro st; rfl
  | cons d rest ih =>
    intro st
    cases d with
    | array t values =>
      rw [checkDataValues]
      rcases hcv : checkConstValues st (Except.error ()) (neededType t) values with
        ⟨st2, res2, values2, ab2⟩
      have hres : res2 = Except.error () := by
        have hmono := checkConstValues_res_mono values st (neededType t)
        rw [hcv] at hmono
        exact hmono
      subst hres
      cases ab2 with
      | true => rfl
      | false => exact ih st2
    | str s => exact ih st
    | file p => exact ih st

theorem checkData_res_mono (ds : List Data) :
    ∀ st, (checkData st (Except.error ()) ds).2.1 = Except.error () := by
  induction ds with
  | nil => intro st; rfl
  | cons d rest ih =>
    intro st
    rw [checkData]
    cases hc : tc_const d.offset with
    | error dg => simp only [hc]
    | ok offset' =>
      simp only [hc]
      by_cases hmm : offset'.type_ ≠ some Ty.i32
      · simp only [if_pos hmm]
        rcases hcv : checkDataValues
            (st.emit (.typeMismatch (some Ty.i32) offset'.span offset'.type_ offset'.span))
            (Except.error ()) d.data with ⟨st2, res2, values2, ab2⟩
        have hres : res2 = Except.error () := by
          have hmono := checkDataValues_res_mono d.data
            (st.emit (.typeMismatch (some Ty.i32) offset'.span offset'.type_ offset'.span))
          rw [hcv] at hmono
          exact hmono
        subst hres
        cases ab2 with
        | true => rfl
        | false => exact ih st2
      · simp only [if_neg hmm]
        rcases hcv : checkDataValues st (Except.error ()) d.data with
          ⟨st2, res2, values2, ab2⟩
        have hres : res2 = Except.error () := by
          have hmono := checkDataValues_res_mono d.data st
          rw [hcv] at hmono
          exact hmono
        subst hres
        cases ab2 with
        | true => rfl
        | false => exact ih st2

def c4imp1 : Import :=
  { span := (0, 9), source_module := "env", type_ := .var "g" Ty.i32 false }

def c4imp2 : Import :=
  { span := (10, 20), source_module := "env", type_ := .var "g" Ty.i64 true }

def c4fn : Function :=
  { span := (21, 30), export_ := false, start := false, name := "f", params := [],
    type_ := some Ty.i32,
    body := .mk none (.block [] (some (.mk none (.i32Const 1) (22, 23)))) (21, 30) }

def c4script : Script :=
  { imports := [c4imp1, c4imp2], functions := [c4fn] }

/-- C4 counterexample: a script whose import registration records a
duplicate-definition error still has its function bodies checked — after
`tc_script` the function body carries its inferred type annotation (`some
i32`, while the parser leaves `none`), so the per-function phase ran, and
the overall result is failure. -/
theorem c4_counterexample :
    (tc_script noIntr 5 c4script).map
        (fun q => (q.1.diags, (q.2.1.functions.headD c4fn).body.type_, q.2.2))
      = some ([Diag.duplicateDefinition "Global already defined" (10, 20) (0, 9)],
              some Ty.i32, Except.error ()) :=
  rfl

/-- C4 (amended): a diagnostic recorded during a registration phase does not
abort the pipeline — every later phase still runs, with the recorded error
only forcing the final result of `tc_script` to be failure.  In particular,
whenever the import-registration phase ends with an error result, the
overall result of `tc_script` is an error, regardless of what the later
phases (which do run, see the counterexample) produce. -/
theorem c4_error_persistence (intr : Intrinsics) (fuel : Nat) (script : Script)
    (st' : TcState) (script' : Script) (res' : Except Unit Unit)
    (h : tc_script intr fuel script = some (st', script', res'))
    (himp : (registerImports ({} : TcState) (Except.ok ()) script.imports).2
      = Except.error ()) :
    res' = Except.error () := by
  simp only [tc_script] at h
  rw [himp] at h
  rcases hg : registerGlobals (registerImports ({} : TcState) (Except.ok ())
      script.imports).1 (Except.error ()) script.global_vars with
    ⟨stg, resg, gl', abg⟩
  have hresg : resg = Except.error () := by
    have hmono := registerGlobals_res_mono script.global_vars
      (registerImports ({} : TcState) (Except.ok ()) script.imports).1
    rw [hg] at hmono
    exact hmono
  subst hresg
  rw [hg] at h
  cases abg with
  | true =>
    simp only [Option.some.injEq, Prod.mk.injEq] at h
    exact h.2.2.symm
  | false =>
    simp only [] at h
    rcases hs : registerSignatures stg (Except.error ()) script.functions with
      ⟨sts, ress⟩
    have hress : ress = Except.error () := by
      have hmono := registerSignatures_res_mono script.functions stg
      rw [hs] at hmono
      exact hmono
    subst hress
    rw [hs] at h
    cases hb : checkBodies intr fuel sts (Except.error ()) script.functions with
    | none =>
      rw [hb] at h
      exact absurd h (by simp)
    | some q =>
      obtain ⟨stb, resb, fs', abb⟩ := q
      have hresb := checkBodies_res_mono intr fuel script.functions sts stb resb fs' abb hb
      subst hresb
      rw [hb] at h
      cases abb with
      | true =>
        simp only [Option.some.injEq, Prod.mk.injEq] at h
        exact h.2.2.symm
      | false =>
        simp only [] at h
        rcases hst : checkStart stb (Except.error ()) none fs' with ⟨stt, rest⟩
        have hrest : rest = Except.error () := by
          have hmono := checkStart_res_mono fs' stb none
          rw [hst] at hmono
          exact hmono
        subst hrest
        rw [hst] at h
        rcases hd : checkData stt (Except.error ()) script.data with
          ⟨std, resd, data', abd⟩
        have hresd : resd = Except.error () := by
          have hmono := checkData_res_mono script.data stt
          rw [hd] at hmono
          exact hmono
        subst hresd
        rw [hd] at h
        cases abd with
        | true =>
          simp only [Option.some.injEq, Prod.mk.injEq] at h
          exact h.2.2.symm
        | false =>
          simp only [Option.some.injEq, Prod.mk.injEq] at h
          exact h.2.2.symm

def c4fnOut : Function :=
  { span := (21, 30), export_ := false, start := false, name := "f", params := [],
    type_ := some Ty.i32,
    body := .mk (some Ty.i32)
      (.block [] (some (.mk (some Ty.i32) (.i32Const 1) (22, 23)))) (21, 30) }

def c4scriptOut : Script :=
  { imports := [c4imp1, c4imp2], functions := [c4fnOut] }

def c4stOut : TcState :=
  { global_vars := [("g", ⟨(0, 9), Ty.i32, false⟩)],
    functions := [("f", ⟨(21, 30), [], some Ty.i32⟩)],
    local_vars := [[]],
    return_type := some Ty.i32,
    diags := [Diag.duplicateDefinition "Global already defined" (10, 20) (0, 9)] }

/-- C4 witness: the amended statement applied to the concrete script of the
counterexample. -/
theorem c4_witness :
    tc_script noIntr 5 c4script = some (c4stOut, c4scriptOut, Except.error ())
    ∧ (registerImports ({} : TcState) (Except.ok ()) c4script.imports).2
        = Except.error ()
    ∧ (Except.error () : Except Unit Unit) = Except.error () := by
  refine ⟨rfl, rfl, ?_⟩
  exact c4_error_persistence noIntr 5 c4script c4stOut c4scriptOut
    (Except.error ()) rfl rfl
